import Mathlib

/-!
# Date store service (`src/index.js`)

A shallow embedding of the Express handlers of `src/index.js`: the JSON values
that `express.json()` hands to a handler, the document kept in
`./data/data.json`, the two storage functions `readData` / `writeData`, and
the nine route handlers.  Storage effects are made explicit: every handler
takes the state of the world (file contents, whether the file can be written,
and the log of storage operations performed so far) and returns the HTTP
response together with the new state of the world.

The POST handlers use the `Date` built-in.  Its operations are written out
after ECMA-262, on exact integers; the time zone of the host is a parameter
(`Zone`), and the `for` loop of these handlers carries a bound on the number
of evaluations of its condition.
-/

namespace Hostel

/-! ## JSON values -/

/-- A value obtained from `JSON.parse`.  Numbers are kept as exact rationals
(the rounding of a literal to a double plays no part in the handlers, which
only test a number for truthiness and compare numbers for equality). -/
inductive JVal where
  | null
  | bool (b : Bool)
  | num (q : ℚ)
  | str (s : String)
  | arr (items : List JVal)
  | obj (fields : List (String × JVal))

namespace JVal

/-- Property read `v[key]` as done by the destructuring `const { key } = req.body`:
the own property of a parsed object (its keys are distinct), `undefined`
(`none`) when the key is missing or the value is not a plain object (the body
parser hands over an object or an array). -/
def get (v : JVal) (key : String) : Option JVal :=
  match v with
  | obj fields => fields.lookup key
  | _ => none

end JVal

/-- JavaScript truthiness (`ToBoolean`) of a possibly `undefined` value. -/
def truthy : Option JVal → Bool
  | none => false
  | some .null => false
  | some (.bool b) => b
  | some (.num q) => decide (q ≠ 0)
  | some (.str s) => decide (s ≠ "")
  | some (.arr _) => true
  | some (.obj _) => true

/-- The test `Array.isArray(v)`. -/
def isArray : Option JVal → Bool
  | some (.arr _) => true
  | _ => false

/-- The elements that the spread `...v` iterates when `v` is an array. -/
def spread : Option JVal → List JVal
  | some (.arr items) => items
  | _ => []

/-- The comparison `SameValueZero` used by `Set`, between two values held at
different positions of parsed JSON: primitives are compared by value, while
two arrays or two objects are always distinct references. -/
def sameValueZero : JVal → JVal → Bool
  | .null, .null => true
  | .bool a, .bool b => a == b
  | .num a, .num b => decide (a = b)
  | .str a, .str b => a == b
  | _, _ => false

/-- One step `set.add(v)`: the value is appended unless the set already holds
the same value. -/
def setAdd (seen : List JVal) (v : JVal) : List JVal :=
  if seen.any (fun u => sameValueZero u v) then seen else seen ++ [v]

/-- The expression `Array.from(new Set(xs))`: the values of `xs` in order of
first occurrence. -/
def arrayFromSet (xs : List JVal) : List JVal :=
  xs.foldl setAdd []

/-! ## Storage -/

/-- The document of `./data/data.json` once parsed: an object whose keys
`availableDates` and `occupiedDates` each hold an array.  Every handler writes
a document of this shape back; a file of another shape is not modelled. -/
structure Doc where
  availableDates : List JVal
  occupiedDates : List JVal

/-- A storage operation, as recorded in the log of the world. -/
inductive Op where
  | read
  | write (d : Doc)

/-- The state of the world a handler runs in: the parsed contents of the data
file (`none` when the file cannot be read or is not valid JSON), whether
`fs.writeFile` succeeds, and the storage operations performed so far. -/
structure World where
  file : Option Doc
  writable : Bool
  log : List Op

/-- An HTTP response: status code and JSON body. -/
structure Response where
  status : Nat
  body : JVal

/-- The function `readData`: the promise resolves with the parsed document or
is rejected. -/
def readData (w : World) : Except Unit Doc × World :=
  let w1 := { w with log := w.log ++ [Op.read] }
  match w.file with
  | some d => (.ok d, w1)
  | none => (.error (), w1)

/-- The function `writeData`: the promise resolves once the document replaced
the file contents, or is rejected (the file is then taken as left alone). -/
def writeData (data : Doc) (w : World) : Except Unit Unit × World :=
  let w1 := { w with log := w.log ++ [Op.write data] }
  if w.writable then (.ok (), { w1 with file := some data }) else (.error (), w1)

/-- Body `{ error: msg }`. -/
def errorBody (msg : String) : JVal := .obj [("error", .str msg)]

/-- Body `{ message: msg }`. -/
def messageBody (msg : String) : JVal := .obj [("message", .str msg)]

/-! ## GET, PUT, PATCH, DELETE -/

/-- Handler `app.get("/dates")`. -/
def getDates (w : World) : Response × World :=
  match readData w with
  | (.ok data, w1) =>
    (⟨200, .obj [("availableDates", .arr data.availableDates),
                 ("occupiedDates", .arr data.occupiedDates)]⟩, w1)
  | (.error _, w1) => (⟨500, errorBody "Error reading data"⟩, w1)

/-- Handler `app.put("/dates/available")`. -/
def putAvailable (w : World) (body : JVal) : Response × World :=
  let availableDates := body.get "availableDates"
  if !truthy availableDates || !isArray availableDates then
    (⟨400, errorBody "Invalid availableDates data"⟩, w)
  else
    match readData w with
    | (.error _, w1) => (⟨500, errorBody "Error updating availableDates"⟩, w1)
    | (.ok data, w1) =>
      let data := { data with availableDates := spread availableDates }
      match writeData data w1 with
      | (.error _, w2) => (⟨500, errorBody "Error updating availableDates"⟩, w2)
      | (.ok _, w2) => (⟨200, messageBody "Available dates updated successfully"⟩, w2)

/-- Handler `app.put("/dates/occupied")`. -/
def putOccupied (w : World) (body : JVal) : Response × World :=
  let occupiedDates := body.get "occupiedDates"
  if !truthy occupiedDates || !isArray occupiedDates then
    (⟨400, errorBody "Invalid occupiedDates data"⟩, w)
  else
    match readData w with
    | (.error _, w1) => (⟨500, errorBody "Error updating occupiedDates"⟩, w1)
    | (.ok data, w1) =>
      let data := { data with occupiedDates := spread occupiedDates }
      match writeData data w1 with
      | (.error _, w2) => (⟨500, errorBody "Error updating occupiedDates"⟩, w2)
      | (.ok _, w2) => (⟨200, messageBody "Occupied dates updated successfully"⟩, w2)

/-- Handler `app.patch("/dates/available")`. -/
def patchAvailable (w : World) (body : JVal) : Response × World :=
  let availableDates := body.get "availableDates"
  if !truthy availableDates || !isArray availableDates then
    (⟨400, errorBody "Invalid availableDates data"⟩, w)
  else
    match readData w with
    | (.error _, w1) => (⟨500, errorBody "Error updating availableDates"⟩, w1)
    | (.ok data, w1) =>
      let data := { data with
        availableDates := arrayFromSet (data.availableDates ++ spread availableDates) }
      match writeData data w1 with
      | (.error _, w2) => (⟨500, errorBody "Error updating availableDates"⟩, w2)
      | (.ok _, w2) =>
        (⟨200, .obj [("message", .str "Available dates updated successfully"),
                     ("availableDates", .arr data.availableDates)]⟩, w2)

/-- Handler `app.patch("/dates/occupied")`. -/
def patchOccupied (w : World) (body : JVal) : Response × World :=
  let occupiedDates := body.get "occupiedDates"
  if !truthy occupiedDates || !isArray occupiedDates then
    (⟨400, errorBody "Invalid occupiedDates data"⟩, w)
  else
    match readData w with
    | (.error _, w1) => (⟨500, errorBody "Error updating occupiedDates"⟩, w1)
    | (.ok data, w1) =>
      let data := { data with
        occupiedDates := arrayFromSet (data.occupiedDates ++ spread occupiedDates) }
      match writeData data w1 with
      | (.error _, w2) => (⟨500, errorBody "Error updating occupiedDates"⟩, w2)
      | (.ok _, w2) =>
        (⟨200, .obj [("message", .str "Occupied dates updated successfully"),
                     ("occupiedDates", .arr data.occupiedDates)]⟩, w2)

/-- Handler `app.delete("/dates/available")`. -/
def deleteAvailable (w : World) : Response × World :=
  match readData w with
  | (.error _, w1) => (⟨500, errorBody "Error deleting availableDates"⟩, w1)
  | (.ok data, w1) =>
    let data := { data with availableDates := [] }
    match writeData data w1 with
    | (.error _, w2) => (⟨500, errorBody "Error deleting availableDates"⟩, w2)
    | (.ok _, w2) => (⟨200, messageBody "Available dates deleted successfully"⟩, w2)

/-- Handler `app.delete("/dates/occupied")`. -/
def deleteOccupied (w : World) : Response × World :=
  match readData w with
  | (.error _, w1) => (⟨500, errorBody "Error deleting occupiedDates"⟩, w1)
  | (.ok data, w1) =>
    let data := { data with occupiedDates := [] }
    match writeData data w1 with
    | (.error _, w2) => (⟨500, errorBody "Error deleting occupiedDates"⟩, w2)
    | (.ok _, w2) => (⟨200, messageBody "Occupied dates deleted successfully"⟩, w2)

/-! ## Strings and numbers -/

/-- The method `s.split(sep)` for a one-character separator, on the characters
of `s`. -/
def splitChars (sep : Char) : List Char → List (List Char)
  | [] => [[]]
  | c :: cs =>
    if c = sep then [] :: splitChars sep cs
    else
      match splitChars sep cs with
      | [] => [[c]]
      | p :: ps => (c :: p) :: ps

/-- The method `s.split(sep)` for a one-character separator. -/
def split (s : String) (sep : Char) : List String :=
  (splitChars sep s.data).map String.mk

/-- A JavaScript exception raised inside the `try` block of a handler. -/
inductive JSError where
  | typeError
  | rangeError
  deriving DecidableEq

/-- The call `v.split(sep)` on a request field: a string is split, any other
truthy JSON value has no callable `split` and the call throws a `TypeError`. -/
def callSplit (v : Option JVal) (sep : Char) : Except JSError (List String) :=
  match v with
  | some (.str s) => .ok (split s sep)
  | _ => .error .typeError

/-- A JavaScript number, as far as date construction tells numbers apart: `NaN`,
an infinity, or the finite value `num / den` with `0 < den` (kept exact: the
rounding to a double is left out). -/
inductive JSNum where
  | nan
  | inf (neg : Bool)
  | fin (num : Int) (den : Nat)
  deriving DecidableEq

/-- Characters of `StrWhiteSpaceChar` (white space and line terminators). -/
def isStrWhiteSpace (c : Char) : Bool :=
  let n := c.toNat
  n == 0x9 || n == 0xA || n == 0xB || n == 0xC || n == 0xD || n == 0x20 || n == 0xA0
    || n == 0x1680 || (0x2000 ≤ n && n ≤ 0x200A) || n == 0x2028 || n == 0x2029
    || n == 0x202F || n == 0x205F || n == 0x3000 || n == 0xFEFF

/-- Removal of leading and trailing white space. -/
def trimChars (cs : List Char) : List Char :=
  ((cs.dropWhile isStrWhiteSpace).reverse.dropWhile isStrWhiteSpace).reverse

/-- Value of a digit in the given base (`0-9`, `a-z`, `A-Z`), if it is one. -/
def digitOf (base : Nat) (c : Char) : Option Nat :=
  let n := c.toNat
  let v : Option Nat :=
    if 48 ≤ n ∧ n ≤ 57 then some (n - 48)
    else if 97 ≤ n ∧ n ≤ 122 then some (n - 87)
    else if 65 ≤ n ∧ n ≤ 90 then some (n - 55)
    else none
  match v with
  | some d => if d < base then some d else none
  | none => none

/-- Value of a run of digits in the given base, most significant digit first,
starting from the accumulator. -/
def natOfDigits (base : Nat) : List Char → Nat → Option Nat
  | [], acc => some acc
  | c :: cs, acc =>
    match digitOf base c with
    | some d => natOfDigits base cs (acc * base + d)
    | none => none

/-- A non-empty run of digits in the given base. -/
def parseDigits (base : Nat) (cs : List Char) : Option Nat :=
  match cs with
  | [] => none
  | _ => natOfDigits base cs 0

/-- The production `NonDecimalIntegerLiteral`: `0x`, `0o` and `0b` literals.
The outer option tells whether the literal starts with one of these marks. -/
def nonDecimalLiteral (cs : List Char) : Option (Option Nat) :=
  match cs with
  | '0' :: x :: ds =>
    if x = 'x' ∨ x = 'X' then some (parseDigits 16 ds)
    else if x = 'o' ∨ x = 'O' then some (parseDigits 8 ds)
    else if x = 'b' ∨ x = 'B' then some (parseDigits 2 ds)
    else none
  | _ => none

/-- The production `ExponentPart`, optional: the exponent of ten. -/
def parseExponent (cs : List Char) : Option Int :=
  match cs with
  | [] => some 0
  | c :: rest =>
    if c = 'e' ∨ c = 'E' then
      match rest with
      | '+' :: ds => (parseDigits 10 ds).map Int.ofNat
      | '-' :: ds => (parseDigits 10 ds).map (fun n => - Int.ofNat n)
      | ds => (parseDigits 10 ds).map Int.ofNat
    else none

/-- The production `StrUnsignedDecimalLiteral` other than `Infinity`: digits,
an optional fraction, an optional exponent.  The value is returned as a
fraction. -/
def unsignedDecimal (cs : List Char) : Option (Nat × Nat) :=
  let ip := cs.takeWhile Char.isDigit
  let r1 := cs.dropWhile Char.isDigit
  let r := match r1 with
    | '.' :: t => t
    | _ => []
  let fp := r.takeWhile Char.isDigit
  let r2 := match r1 with
    | '.' :: t => t.dropWhile Char.isDigit
    | _ => r1
  if ip = [] ∧ fp = [] then none
  else
    match parseExponent r2 with
    | none => none
    | some e =>
      let i := (natOfDigits 10 ip 0).getD 0
      let f := (natOfDigits 10 fp 0).getD 0
      let n := i * 10 ^ fp.length + f
      if 0 ≤ e then some (n * 10 ^ e.toNat, 10 ^ fp.length)
      else some (n, 10 ^ fp.length * 10 ^ (-e).toNat)

/-- The production `StrDecimalLiteral`: an optional sign, then `Infinity` or an
unsigned decimal literal; anything else is `NaN`. -/
def strDecimalLiteral (cs : List Char) : JSNum :=
  let neg := match cs with
    | '-' :: _ => true
    | _ => false
  let rest := match cs with
    | '+' :: r => r
    | '-' :: r => r
    | _ => cs
  if rest = "Infinity".data then .inf neg
  else
    match unsignedDecimal rest with
    | some (n, d) => .fin (if neg then - Int.ofNat n else Int.ofNat n) d
    | none => .nan

/-- The operation `StringToNumber`: the numeric value of a string (exact; the
rounding to a double is left out). -/
def stringToNumber (s : String) : JSNum :=
  let cs := trimChars s.data
  match cs with
  | [] => .fin 0 1
  | _ =>
    match nonDecimalLiteral cs with
    | some (some n) => .fin (Int.ofNat n) 1
    | some none => .nan
    | none => strDecimalLiteral cs

/-- The operation `ToNumber` of a possibly `undefined` string, as in `+fromYear`. -/
def toNumber : Option String → JSNum
  | none => .nan
  | some s => stringToNumber s

/-- Subtraction `x - k` of an integer. -/
def JSNum.sub (x : JSNum) (k : Int) : JSNum :=
  match x with
  | .fin n d => .fin (n - k * d) d
  | other => other

/-- Addition `x + k` of an integer. -/
def JSNum.add (x : JSNum) (k : Int) : JSNum :=
  match x with
  | .fin n d => .fin (n + k * d) d
  | other => other

/-- The operation `ToIntegerOrInfinity` on the finite value `num / den`:
rounding towards zero. -/
def truncate (num : Int) (den : Nat) : Int :=
  if 0 ≤ num then num / (den : Int) else - ((-num) / (den : Int))

/-! ## Dates

The `Date` built-in, following the abstract operations of ECMA-262
(section "Date Objects").  A time value is a number of milliseconds since
the epoch, or `NaN`. -/

/-- A time value: `none` is `NaN` (an invalid date). -/
abbrev TimeValue := Option Int

/-- Milliseconds per day. -/
def msPerDay : Int := 86400000

/-- The host time zone: `localTZA t isUTC` is the offset of local time from UTC
in milliseconds, at the UTC time `t` when `isUTC` and at the local time `t`
otherwise (the implementation-defined `LocalTZA`). -/
structure Zone where
  localTZA : Int → Bool → Int

/-- A zone whose offset from UTC never changes. -/
def Zone.fixed (offset : Int) : Zone := ⟨fun _ _ => offset⟩

/-- The operation `Day(t)`. -/
def Day (t : Int) : Int := t / msPerDay

/-- The operation `TimeWithinDay(t)`. -/
def TimeWithinDay (t : Int) : Int := t % msPerDay

/-- The operation `DaysInYear(y)`. -/
def DaysInYear (y : Int) : Int :=
  if y % 4 ≠ 0 then 365
  else if y % 100 ≠ 0 then 366
  else if y % 400 ≠ 0 then 365
  else 366

/-- The operation `DayFromYear(y)`: the day number of the first day of year `y`. -/
def DayFromYear (y : Int) : Int :=
  365 * (y - 1970) + (y - 1969) / 4 - (y - 1901) / 100 + (y - 1601) / 400

/-- The largest year `y` with `DayFromYear(y) ≤ day`, found from the estimate
given by the mean length of a year. -/
def YearFromDay (day : Int) : Int :=
  let y := 1970 + day * 400 / 146097
  if day < DayFromYear y then y - 1
  else if DayFromYear (y + 1) ≤ day then y + 1
  else y

/-- The operation `YearFromTime(t)`. -/
def YearFromTime (t : Int) : Int := YearFromDay (Day t)

/-- The value `InLeapYear(t)` for a time of year `y`: `1` in a leap year, `0`
otherwise. -/
def leapOfYear (y : Int) : Int := if DaysInYear y = 366 then 1 else 0

/-- The operation `InLeapYear(t)`. -/
def InLeapYear (t : Int) : Int := leapOfYear (YearFromTime t)

/-- The operation `DayWithinYear(t)`. -/
def DayWithinYear (t : Int) : Int := Day t - DayFromYear (YearFromTime t)

/-- The month (`0` is January) of the day `d` of a year, counted from `0`; `l`
is `1` in a leap year and `0` otherwise. -/
def monthOfYearDay (d l : Int) : Int :=
  if d < 31 then 0
  else if d < 59 + l then 1
  else if d < 90 + l then 2
  else if d < 120 + l then 3
  else if d < 151 + l then 4
  else if d < 181 + l then 5
  else if d < 212 + l then 6
  else if d < 243 + l then 7
  else if d < 273 + l then 8
  else if d < 304 + l then 9
  else if d < 334 + l then 10
  else 11

/-- The operation `MonthFromTime(t)`: `0` is January. -/
def MonthFromTime (t : Int) : Int :=
  monthOfYearDay (DayWithinYear t) (InLeapYear t)

/-- The day of the month (from `1`) of the day `d` of a year, which lies in the
month `m`. -/
def dateOfYearDay (d l m : Int) : Int :=
  match m with
  | 0 => d + 1
  | 1 => d - 30
  | 2 => d - 58 - l
  | 3 => d - 89 - l
  | 4 => d - 119 - l
  | 5 => d - 150 - l
  | 6 => d - 180 - l
  | 7 => d - 211 - l
  | 8 => d - 242 - l
  | 9 => d - 272 - l
  | 10 => d - 303 - l
  | _ => d - 333 - l

/-- The operation `DateFromTime(t)`: the day of the month, from `1`. -/
def DateFromTime (t : Int) : Int :=
  dateOfYearDay (DayWithinYear t) (InLeapYear t) (MonthFromTime t)

/-- The operation `HourFromTime(t)`. -/
def HourFromTime (t : Int) : Int := (t / 3600000) % 24

/-- The operation `MinFromTime(t)`. -/
def MinFromTime (t : Int) : Int := (t / 60000) % 60

/-- The operation `SecFromTime(t)`. -/
def SecFromTime (t : Int) : Int := (t / 1000) % 60

/-- The operation `msFromTime(t)`. -/
def msFromTime (t : Int) : Int := t % 1000

/-- Number of days of a year before its month `mn` (`0` is January); `l` is `1`
in a leap year and `0` otherwise. -/
def daysBefore (l mn : Int) : Int :=
  match mn with
  | 0 => 0
  | 1 => 31
  | 2 => 59 + l
  | 3 => 90 + l
  | 4 => 120 + l
  | 5 => 151 + l
  | 6 => 181 + l
  | 7 => 212 + l
  | 8 => 243 + l
  | 9 => 273 + l
  | 10 => 304 + l
  | _ => 334 + l

/-- Number of days of year `ym` before its month `mn` (`0` is January). -/
def daysBeforeMonth (ym mn : Int) : Int := daysBefore (leapOfYear ym) mn

/-- The operation `MakeDay(year, month, date)`: the time `t` the standard asks for, the first
day of month `mn` of year `ym`, has day number
`DayFromYear ym + daysBeforeMonth ym mn`. -/
def MakeDay (year month date : JSNum) : Option Int :=
  match year, month, date with
  | .fin yn yd, .fin mnum mden, .fin dn dd =>
    let y := truncate yn yd
    let m := truncate mnum mden
    let dt := truncate dn dd
    let ym := y + m / 12
    let mn := m % 12
    some (DayFromYear ym + daysBeforeMonth ym mn + dt - 1)
  | _, _, _ => none

/-- The operation `MakeTime(hour, min, sec, ms)` on integers. -/
def MakeTime (hour min sec ms : Int) : Int :=
  hour * 3600000 + min * 60000 + sec * 1000 + ms

/-- The operation `MakeDate(day, time)`. -/
def MakeDate (day : Option Int) (time : Int) : Option Int :=
  day.map (fun d => d * msPerDay + time)

/-- The operation `MakeFullYear(year)`: a year from 0 to 99 stands for 1900 to 1999. -/
def MakeFullYear (year : JSNum) : JSNum :=
  match year with
  | .fin n d =>
    let truncated := truncate n d
    if 0 ≤ truncated ∧ truncated ≤ 99 then .fin (1900 + truncated) 1
    else .fin truncated 1
  | other => other

/-- The operation `LocalTime(t)`. -/
def LocalTime (z : Zone) (t : Int) : Int := t + z.localTZA t true

/-- The operation `UTC(t)` of a local time. -/
def UTC (z : Zone) (t : Option Int) : Option Int :=
  t.map (fun t => t - z.localTZA t false)

/-- The operation `TimeClip(time)`. -/
def TimeClip (time : Option Int) : TimeValue :=
  match time with
  | some t => if 8640000000000000 < |t| then none else some t
  | none => none

/-- The constructor call `new Date(year, month, date)`: local midnight of the
given day. -/
def newDate (z : Zone) (year month date : JSNum) : TimeValue :=
  let yr := MakeFullYear year
  let finalDate := MakeDate (MakeDay yr month date) (MakeTime 0 0 0 0)
  TimeClip (UTC z finalDate)

/-- The constructor call `new Date(d)` on a `Date` object: a copy. -/
def copyDate (d : TimeValue) : TimeValue := TimeClip d

/-- The comparison `d <= to` of two `Date` objects: of their time values,
false when one is `NaN`. -/
def dateLE (d e : TimeValue) : Bool :=
  match d, e with
  | some a, some b => decide (a ≤ b)
  | _, _ => false

/-- The method `d.getDate()`. -/
def getDate (z : Zone) (d : TimeValue) : JSNum :=
  match d with
  | none => .nan
  | some t => .fin (DateFromTime (LocalTime z t)) 1

/-- The method `d.setDate(date)`: the new time value of `d`. -/
def setDate (z : Zone) (d : TimeValue) (date : JSNum) : TimeValue :=
  match d with
  | none => none
  | some t0 =>
    let t := LocalTime z t0
    let newDate := MakeDate (MakeDay (.fin (YearFromTime t) 1) (.fin (MonthFromTime t) 1) date)
      (TimeWithinDay t)
    TimeClip (UTC z newDate)

/-- The character of the last decimal digit of `k`. -/
def digitChar (k : Nat) : Char := Char.ofNat (48 + k % 10)

/-- The last `width` decimal digits of `n`, most significant first, with
leading zeros. -/
def padDigits (width n : Nat) : List Char :=
  (List.range width).reverse.map (fun i => digitChar (n / 10 ^ i))

/-- The year of an ISO date: four digits from 0 to 9999, a sign and six digits
otherwise. -/
def isoYear (y : Int) : List Char :=
  if 0 ≤ y ∧ y ≤ 9999 then padDigits 4 y.toNat
  else (if y < 0 then '-' else '+') :: padDigits 6 y.natAbs

/-- The method `d.toISOString()`: `YYYY-MM-DDTHH:mm:ss.sssZ` in UTC; a
`RangeError` on an invalid date. -/
def toISOString (d : TimeValue) : Except JSError String :=
  match d with
  | none => .error .rangeError
  | some t =>
    .ok (String.mk (isoYear (YearFromTime t) ++ '-' :: padDigits 2 (MonthFromTime t + 1).toNat
      ++ '-' :: padDigits 2 (DateFromTime t).toNat
      ++ 'T' :: padDigits 2 (HourFromTime t).toNat
      ++ ':' :: padDigits 2 (MinFromTime t).toNat
      ++ ':' :: padDigits 2 (SecFromTime t).toNat
      ++ '.' :: padDigits 3 (msFromTime t).toNat ++ ['Z']))

/-! ## POST: range insertion -/

/-- The loop `for (let d = new Date(from); d <= to; d.setDate(d.getDate() + 1))`
with its body.  The counter bounds the number of evaluations of the loop
condition; `none` means that the loop is still running when it is used up. -/
def rangeLoop (z : Zone) (toD : TimeValue) :
    Nat → TimeValue → List JVal → Option (Except JSError (List JVal))
  | 0, _, _ => none
  | fuel + 1, d, dates =>
    if dateLE d toD then
      match toISOString d with
      | .error e => some (.error e)
      | .ok iso =>
        let fecha := (split iso 'T').headD ""
        rangeLoop z toD fuel (setDate z d ((getDate z d).add 1)) (dates ++ [.str fecha])
    else some (.ok dates)

/-- The three components `[year, month, day]` taken off a split string, then
`new Date(+year, month - 1, +day)`. -/
def parseDate (z : Zone) (parts : List String) : TimeValue :=
  let year := parts[0]?
  let month := parts[1]?
  let day := parts[2]?
  newDate z (toNumber year) ((toNumber month).sub 1) (toNumber day)

/-- The part of the `try` block of the POST handlers between `readData` and the
merge: parsing of the two dates and generation of the range. -/
def generateDates (z : Zone) (fuel : Nat) (fromDate toDate : Option JVal) :
    Option (Except JSError (List JVal)) :=
  match callSplit fromDate '-' with
  | .error e => some (.error e)
  | .ok fromParts =>
    let fromD := parseDate z fromParts
    match callSplit toDate '-' with
    | .error e => some (.error e)
    | .ok toParts =>
      let toD := parseDate z toParts
      rangeLoop z toD fuel (copyDate fromD) []

/-- Handler `app.post("/dates/available")`; `none` when the loop does not end
within `fuel` evaluations of its condition. -/
def postAvailable (z : Zone) (fuel : Nat) (w : World) (body : JVal) :
    Option (Response × World) :=
  let fromDate := body.get "fromDate"
  let toDate := body.get "toDate"
  if !truthy fromDate || !truthy toDate then
    some (⟨400, errorBody "Invalid fromDate or toDate data"⟩, w)
  else
    match readData w with
    | (.error _, w1) => some (⟨500, errorBody "Error updating availableDates"⟩, w1)
    | (.ok data, w1) =>
      match generateDates z fuel fromDate toDate with
      | none => none
      | some (.error _) => some (⟨500, errorBody "Error updating availableDates"⟩, w1)
      | some (.ok dates) =>
        let data := { data with availableDates := arrayFromSet (data.availableDates ++ dates) }
        match writeData data w1 with
        | (.error _, w2) => some (⟨500, errorBody "Error updating availableDates"⟩, w2)
        | (.ok _, w2) =>
          some (⟨200, .obj [("message", .str "Available dates updated successfully"),
                            ("availableDates", .arr data.availableDates)]⟩, w2)

/-- Handler `app.post("/dates/occupied")`; `none` when the loop does not end
within `fuel` evaluations of its condition. -/
def postOccupied (z : Zone) (fuel : Nat) (w : World) (body : JVal) :
    Option (Response × World) :=
  let fromDate := body.get "fromDate"
  let toDate := body.get "toDate"
  if !truthy fromDate || !truthy toDate then
    some (⟨400, errorBody "Invalid fromDate or toDate data"⟩, w)
  else
    match readData w with
    | (.error _, w1) => some (⟨500, errorBody "Error updating occupiedDates"⟩, w1)
    | (.ok data, w1) =>
      match generateDates z fuel fromDate toDate with
      | none => none
      | some (.error _) => some (⟨500, errorBody "Error updating occupiedDates"⟩, w1)
      | some (.ok dates) =>
        let data := { data with occupiedDates := arrayFromSet (data.occupiedDates ++ dates) }
        match writeData data w1 with
        | (.error _, w2) => some (⟨500, errorBody "Error updating occupiedDates"⟩, w2)
        | (.ok _, w2) =>
          some (⟨200, .obj [("message", .str "OccupiedDates dates updated successfully"),
                            ("occupiedDates", .arr data.occupiedDates)]⟩, w2)

/-! ## Predicates used by the statements -/

/-- No two entries of a collection are the same value (in the sense of `Set`). -/
def DupFree (l : List JVal) : Prop :=
  l.Pairwise (fun a b => sameValueZero a b = false)

/-- The strings held in a collection, in order. -/
def strings : List JVal → List String
  | [] => []
  | .str s :: rest => s :: strings rest
  | _ :: rest => strings rest

/-- The document in storage has two duplicate-free collections. -/
def StoredDupFree (w : World) : Prop :=
  ∃ d, w.file = some d ∧ DupFree d.availableDates ∧ DupFree d.occupiedDates

/-- A sample document. -/
def sampleDoc : Doc := ⟨[.str "2024-01-01"], [.str "2024-02-01"]⟩

/-- A sample world: the sample document in readable and writable storage, no
storage operation performed yet. -/
def sampleWorld : World := ⟨some sampleDoc, true, []⟩

/-- A sample request body: an array that holds the same date twice. -/
def sampleDuplicateBody : JVal :=
  .obj [("availableDates", .arr [.str "2024-05-01", .str "2024-05-01"])]

/-- A sample request body: an array that holds a number, `null` and a nested
object. -/
def sampleMixedBody : JVal :=
  .obj [("availableDates", .arr [.num 1, .null, .obj [("day", .str "2024-05-01")]])]

/-- A sample world with an empty document. -/
def sampleEmptyWorld : World := ⟨some ⟨[], []⟩, true, []⟩

/-- The request body `{ fromDate, toDate }`. -/
def rangeBody (fromDate toDate : String) : JVal :=
  .obj [("fromDate", .str fromDate), ("toDate", .str toDate)]

/-- The document in storage after the operation keeps the `occupiedDates` that
was read, and is the document the operation wrote. -/
def KeepsOccupied (w w1 : World) : Prop :=
  ∃ d d1, w.file = some d ∧ w1.file = some d1 ∧
    w1.log = w.log ++ [Op.read, Op.write d1] ∧ d1.occupiedDates = d.occupiedDates

/-- The document in storage after the operation keeps the `availableDates` that
was read, and is the document the operation wrote. -/
def KeepsAvailable (w w1 : World) : Prop :=
  ∃ d d1, w.file = some d ∧ w1.file = some d1 ∧
    w1.log = w.log ++ [Op.read, Op.write d1] ∧ d1.availableDates = d.availableDates

/-- The calendar date `y-m-d` written as `YYYY-MM-DD`. -/
def isoDate (y m d : Nat) : String :=
  String.mk (padDigits 4 y ++ '-' :: padDigits 2 m ++ '-' :: padDigits 2 d)

/-- Number of days of month `m` (`1` is January) of year `y`. -/
def daysInMonth (y m : Nat) : Nat :=
  match m with
  | 2 => if DaysInYear y = 366 then 29 else 28
  | 4 => 30
  | 6 => 30
  | 9 => 30
  | 11 => 30
  | _ => 31

/-- A well-formed calendar date that `YYYY-MM-DD` can write. -/
def ValidDate (y m d : Nat) : Prop :=
  y ≤ 9999 ∧ 1 ≤ m ∧ m ≤ 12 ∧ 1 ≤ d ∧ d ≤ daysInMonth y m

/-- The first date lies before the second. -/
def DateLT (y1 m1 d1 y2 m2 d2 : Nat) : Prop :=
  y1 < y2 ∨ (y1 = y2 ∧ (m1 < m2 ∨ (m1 = m2 ∧ d1 < d2)))

/-- Day number (`0` is 1970-01-01) of the calendar date `y-m-d`. -/
def civilDay (y m d : Int) : Int :=
  DayFromYear y + daysBeforeMonth y (m - 1) + d - 1

/-- The calendar day after `c = (year, month, day)`. -/
def nextDate (c : Nat × Nat × Nat) : Nat × Nat × Nat :=
  if c.2.2 < daysInMonth c.1 c.2.1 then (c.1, c.2.1, c.2.2 + 1)
  else if c.2.1 < 12 then (c.1, c.2.1 + 1, 1)
  else (c.1 + 1, 1, 1)

/-- The calendar dates `c`, `c + 1 day`, ..., `c + n days`, in order. -/
def dateRange : Nat → Nat × Nat × Nat → List (Nat × Nat × Nat)
  | 0, c => [c]
  | n + 1, c => c :: dateRange n (nextDate c)

/-- The instant of local midnight of the calendar date `c` in a zone at the
fixed offset `off`. -/
def midnight (off : Int) (c : Nat × Nat × Nat) : Int :=
  civilDay c.1 c.2.1 c.2.2 * msPerDay - off

/-- The offsets of the zone differ by less than a day from one another. -/
def Zone.Steady (z : Zone) : Prop :=
  ∀ a b i j, |z.localTZA a i - z.localTZA b j| < msPerDay

/-- Moving the local time of an instant forward by one day gives a later
instant. -/
def Zone.Advances (z : Zone) : Prop :=
  ∀ t, t < LocalTime z t + msPerDay - z.localTZA (LocalTime z t + msPerDay) false

/-! ## Theorems -/

theorem sameValueZero_str_right {u : JVal} {s : String}
    (h : sameValueZero u (.str s) = true) : u = .str s := by
  cases u <;> simp_all [sameValueZero]

theorem sameValueZero_str_self (s : String) : sameValueZero (.str s) (.str s) = true := by
  simp [sameValueZero]

theorem mem_setAdd_foldl {v : JVal} (xs : List JVal) :
    ∀ acc : List JVal, v ∈ xs.foldl setAdd acc → v ∈ acc ∨ v ∈ xs := by
  induction xs with
  | nil => intro acc h; exact Or.inl h
  | cons x xs ih =>
    intro acc h
    rw [List.foldl_cons] at h
    rcases ih _ h with h1 | h1
    · unfold setAdd at h1
      split at h1
      · exact Or.inl h1
      · rcases List.mem_append.mp h1 with h2 | h2
        · exact Or.inl h2
        · right; simp at h2; simp [h2]
    · right; exact List.mem_cons_of_mem _ h1

theorem acc_subset_setAdd_foldl {v : JVal} (xs : List JVal) :
    ∀ acc : List JVal, v ∈ acc → v ∈ xs.foldl setAdd acc := by
  induction xs with
  | nil => intro acc h; exact h
  | cons x xs ih =>
    intro acc h
    rw [List.foldl_cons]
    apply ih
    unfold setAdd
    split
    · exact h
    · exact List.mem_append_left _ h

theorem str_mem_setAdd_foldl {s : String} (xs : List JVal) :
    ∀ acc : List JVal, JVal.str s ∈ xs → JVal.str s ∈ xs.foldl setAdd acc := by
  induction xs with
  | nil => intro acc h; simp at h
  | cons x xs ih =>
    intro acc h
    rw [List.foldl_cons]
    rcases List.mem_cons.mp h with h1 | h1
    · apply acc_subset_setAdd_foldl
      subst h1
      unfold setAdd
      split
      · rename_i hany
        obtain ⟨u, hu, hsv⟩ := List.any_eq_true.mp hany
        rw [← sameValueZero_str_right hsv]
        exact hu
      · simp
    · exact ih _ h1

theorem dupFree_setAdd_foldl (xs : List JVal) :
    ∀ acc : List JVal, DupFree acc → DupFree (xs.foldl setAdd acc) := by
  induction xs with
  | nil => intro acc h; exact h
  | cons x xs ih =>
    intro acc h
    rw [List.foldl_cons]
    apply ih
    unfold setAdd
    split
    · exact h
    · rename_i hany
      unfold DupFree
      rw [List.pairwise_append]
      refine ⟨h, List.pairwise_singleton _ _, ?_⟩
      intro a ha b hb
      simp at hb
      subst hb
      have := fun hc => hany (List.any_eq_true.mpr ⟨a, ha, hc⟩)
      simpa using this

theorem setAdd_foldl_of_dupFree (xs : List JVal) :
    ∀ acc : List JVal, DupFree (acc ++ xs) → xs.foldl setAdd acc = acc ++ xs := by
  induction xs with
  | nil => intro acc _; simp
  | cons x xs ih =>
    intro acc h
    rw [List.foldl_cons]
    have hx : setAdd acc x = acc ++ [x] := by
      unfold setAdd
      rw [if_neg]
      intro hany
      obtain ⟨u, hu, hsv⟩ := List.any_eq_true.mp hany
      unfold DupFree at h
      rw [List.pairwise_append] at h
      have := h.2.2 u hu x (List.mem_cons_self _ _)
      simp [hsv] at this
    rw [hx, ih]
    · simp
    · simpa using h

theorem dupFree_arrayFromSet (xs : List JVal) : DupFree (arrayFromSet xs) :=
  dupFree_setAdd_foldl xs [] List.Pairwise.nil

theorem arrayFromSet_of_dupFree {xs : List JVal} (h : DupFree xs) : arrayFromSet xs = xs := by
  simpa using setAdd_foldl_of_dupFree xs [] (by simpa using h)

theorem str_mem_arrayFromSet (s : String) (xs : List JVal) :
    JVal.str s ∈ arrayFromSet xs ↔ JVal.str s ∈ xs := by
  constructor
  · intro h
    rcases mem_setAdd_foldl xs [] h with h1 | h1
    · simp at h1
    · exact h1
  · exact str_mem_setAdd_foldl xs []

theorem mem_strings {s : String} {l : List JVal} : s ∈ strings l ↔ JVal.str s ∈ l := by
  induction l with
  | nil => simp [strings]
  | cons x xs ih => cases x <;> simp [strings, ih]

theorem nodup_strings_of_dupFree {l : List JVal} (h : DupFree l) : (strings l).Nodup := by
  induction l with
  | nil => simp [strings]
  | cons x xs ih =>
    unfold DupFree at h
    rw [List.pairwise_cons] at h
    cases x <;> simp only [strings] <;> try exact ih h.2
    rename_i s
    rw [List.nodup_cons]
    refine ⟨?_, ih h.2⟩
    intro hs
    have := h.1 _ (mem_strings.mp hs)
    simp [sameValueZero] at this

/-! ### The handlers, case by case -/

theorem isArray_eq_false_iff (v : Option JVal) :
    isArray v = false ↔ ∀ l, v ≠ some (.arr l) := by
  unfold isArray
  split <;> simp_all

theorem putAvailable_reject (w : World) (body : JVal)
    (h : ∀ l, body.get "availableDates" ≠ some (.arr l)) :
    putAvailable w body = (⟨400, errorBody "Invalid availableDates data"⟩, w) := by
  have := (isArray_eq_false_iff _).mpr h
  simp [putAvailable, this]

theorem putOccupied_reject (w : World) (body : JVal)
    (h : ∀ l, body.get "occupiedDates" ≠ some (.arr l)) :
    putOccupied w body = (⟨400, errorBody "Invalid occupiedDates data"⟩, w) := by
  have := (isArray_eq_false_iff _).mpr h
  simp [putOccupied, this]

theorem patchAvailable_reject (w : World) (body : JVal)
    (h : ∀ l, body.get "availableDates" ≠ some (.arr l)) :
    patchAvailable w body = (⟨400, errorBody "Invalid availableDates data"⟩, w) := by
  have := (isArray_eq_false_iff _).mpr h
  simp [patchAvailable, this]

theorem patchOccupied_reject (w : World) (body : JVal)
    (h : ∀ l, body.get "occupiedDates" ≠ some (.arr l)) :
    patchOccupied w body = (⟨400, errorBody "Invalid occupiedDates data"⟩, w) := by
  have := (isArray_eq_false_iff _).mpr h
  simp [patchOccupied, this]

theorem putAvailable_accept (w : World) (body : JVal) (A : List JVal)
    (h : body.get "availableDates" = some (.arr A)) :
    putAvailable w body =
      match w.file with
      | none => (⟨500, errorBody "Error updating availableDates"⟩,
          { w with log := w.log ++ [Op.read] })
      | some d =>
        if w.writable then
          (⟨200, messageBody "Available dates updated successfully"⟩,
            { file := some { d with availableDates := A }, writable := w.writable,
              log := w.log ++ [Op.read, Op.write { d with availableDates := A }] })
        else
          (⟨500, errorBody "Error updating availableDates"⟩,
            { w with log := w.log ++ [Op.read, Op.write { d with availableDates := A }] }) := by
  unfold putAvailable readData writeData
  cases hf : w.file <;> cases hw : w.writable <;> simp [h, truthy, isArray, spread, hf, hw]

theorem putOccupied_accept (w : World) (body : JVal) (A : List JVal)
    (h : body.get "occupiedDates" = some (.arr A)) :
    putOccupied w body =
      match w.file with
      | none => (⟨500, errorBody "Error updating occupiedDates"⟩,
          { w with log := w.log ++ [Op.read] })
      | some d =>
        if w.writable then
          (⟨200, messageBody "Occupied dates updated successfully"⟩,
            { file := some { d with occupiedDates := A }, writable := w.writable,
              log := w.log ++ [Op.read, Op.write { d with occupiedDates := A }] })
        else
          (⟨500, errorBody "Error updating occupiedDates"⟩,
            { w with log := w.log ++ [Op.read, Op.write { d with occupiedDates := A }] }) := by
  unfold putOccupied readData writeData
  cases hf : w.file <;> cases hw : w.writable <;> simp [h, truthy, isArray, spread, hf, hw]

theorem patchAvailable_accept (w : World) (body : JVal) (A : List JVal)
    (h : body.get "availableDates" = some (.arr A)) :
    patchAvailable w body =
      match w.file with
      | none => (⟨500, errorBody "Error updating availableDates"⟩,
          { w with log := w.log ++ [Op.read] })
      | some d =>
        let r := arrayFromSet (d.availableDates ++ A)
        if w.writable then
          (⟨200, .obj [("message", .str "Available dates updated successfully"),
                       ("availableDates", .arr r)]⟩,
            { file := some { d with availableDates := r }, writable := w.writable,
              log := w.log ++ [Op.read, Op.write { d with availableDates := r }] })
        else
          (⟨500, errorBody "Error updating availableDates"⟩,
            { w with log := w.log ++ [Op.read, Op.write { d with availableDates := r }] }) := by
  unfold patchAvailable readData writeData
  cases hf : w.file <;> cases hw : w.writable <;> simp [h, truthy, isArray, spread, hf, hw]

theorem patchOccupied_accept (w : World) (body : JVal) (A : List JVal)
    (h : body.get "occupiedDates" = some (.arr A)) :
    patchOccupied w body =
      match w.file with
      | none => (⟨500, errorBody "Error updating occupiedDates"⟩,
          { w with log := w.log ++ [Op.read] })
      | some d =>
        let r := arrayFromSet (d.occupiedDates ++ A)
        if w.writable then
          (⟨200, .obj [("message", .str "Occupied dates updated successfully"),
                       ("occupiedDates", .arr r)]⟩,
            { file := some { d with occupiedDates := r }, writable := w.writable,
              log := w.log ++ [Op.read, Op.write { d with occupiedDates := r }] })
        else
          (⟨500, errorBody "Error updating occupiedDates"⟩,
            { w with log := w.log ++ [Op.read, Op.write { d with occupiedDates := r }] }) := by
  unfold patchOccupied readData writeData
  cases hf : w.file <;> cases hw : w.writable <;> simp [h, truthy, isArray, spread, hf, hw]

theorem deleteAvailable_eq (w : World) :
    deleteAvailable w =
      match w.file with
      | none => (⟨500, errorBody "Error deleting availableDates"⟩,
          { w with log := w.log ++ [Op.read] })
      | some d =>
        if w.writable then
          (⟨200, messageBody "Available dates deleted successfully"⟩,
            { file := some { d with availableDates := [] }, writable := w.writable,
              log := w.log ++ [Op.read, Op.write { d with availableDates := [] }] })
        else
          (⟨500, errorBody "Error deleting availableDates"⟩,
            { w with log := w.log ++ [Op.read, Op.write { d with availableDates := [] }] }) := by
  unfold deleteAvailable readData writeData
  cases hf : w.file <;> cases hw : w.writable <;> simp [hf, hw]

theorem deleteOccupied_eq (w : World) :
    deleteOccupied w =
      match w.file with
      | none => (⟨500, errorBody "Error deleting occupiedDates"⟩,
          { w with log := w.log ++ [Op.read] })
      | some d =>
        if w.writable then
          (⟨200, messageBody "Occupied dates deleted successfully"⟩,
            { file := some { d with occupiedDates := [] }, writable := w.writable,
              log := w.log ++ [Op.read, Op.write { d with occupiedDates := [] }] })
        else
          (⟨500, errorBody "Error deleting occupiedDates"⟩,
            { w with log := w.log ++ [Op.read, Op.write { d with occupiedDates := [] }] }) := by
  unfold deleteOccupied readData writeData
  cases hf : w.file <;> cases hw : w.writable <;> simp [hf, hw]

theorem postAvailable_reject (z : Zone) (fuel : Nat) (w : World) (body : JVal)
    (h : truthy (body.get "fromDate") = false ∨ truthy (body.get "toDate") = false) :
    postAvailable z fuel w body =
      some (⟨400, errorBody "Invalid fromDate or toDate data"⟩, w) := by
  unfold postAvailable
  rcases h with h | h <;> simp [h]

theorem postOccupied_reject (z : Zone) (fuel : Nat) (w : World) (body : JVal)
    (h : truthy (body.get "fromDate") = false ∨ truthy (body.get "toDate") = false) :
    postOccupied z fuel w body =
      some (⟨400, errorBody "Invalid fromDate or toDate data"⟩, w) := by
  unfold postOccupied
  rcases h with h | h <;> simp [h]

theorem postAvailable_accept (z : Zone) (fuel : Nat) (w : World) (body : JVal)
    (hf : truthy (body.get "fromDate") = true) (ht : truthy (body.get "toDate") = true) :
    postAvailable z fuel w body =
      match w.file with
      | none => some (⟨500, errorBody "Error updating availableDates"⟩,
          { w with log := w.log ++ [Op.read] })
      | some d =>
        match generateDates z fuel (body.get "fromDate") (body.get "toDate") with
        | none => none
        | some (.error _) => some (⟨500, errorBody "Error updating availableDates"⟩,
            { w with log := w.log ++ [Op.read] })
        | some (.ok dates) =>
          let r := arrayFromSet (d.availableDates ++ dates)
          if w.writable then
            some (⟨200, .obj [("message", .str "Available dates updated successfully"),
                              ("availableDates", .arr r)]⟩,
              { file := some { d with availableDates := r }, writable := w.writable,
                log := w.log ++ [Op.read, Op.write { d with availableDates := r }] })
          else
            some (⟨500, errorBody "Error updating availableDates"⟩,
              { w with log := w.log ++ [Op.read, Op.write { d with availableDates := r }] }) := by
  unfold postAvailable readData writeData
  cases hfile : w.file <;> cases hw : w.writable <;> simp [hf, ht, hfile, hw]

theorem postOccupied_accept (z : Zone) (fuel : Nat) (w : World) (body : JVal)
    (hf : truthy (body.get "fromDate") = true) (ht : truthy (body.get "toDate") = true) :
    postOccupied z fuel w body =
      match w.file with
      | none => some (⟨500, errorBody "Error updating occupiedDates"⟩,
          { w with log := w.log ++ [Op.read] })
      | some d =>
        match generateDates z fuel (body.get "fromDate") (body.get "toDate") with
        | none => none
        | some (.error _) => some (⟨500, errorBody "Error updating occupiedDates"⟩,
            { w with log := w.log ++ [Op.read] })
        | some (.ok dates) =>
          let r := arrayFromSet (d.occupiedDates ++ dates)
          if w.writable then
            some (⟨200, .obj [("message", .str "OccupiedDates dates updated successfully"),
                              ("occupiedDates", .arr r)]⟩,
              { file := some { d with occupiedDates := r }, writable := w.writable,
                log := w.log ++ [Op.read, Op.write { d with occupiedDates := r }] })
          else
            some (⟨500, errorBody "Error updating occupiedDates"⟩,
              { w with log := w.log ++ [Op.read, Op.write { d with occupiedDates := r }] }) := by
  unfold postOccupied readData writeData
  cases hfile : w.file <;> cases hw : w.writable <;> simp [hf, ht, hfile, hw]


/-! ### What a successful request did -/

theorem putAvailable_success (w : World) (body : JVal)
    (h : (putAvailable w body).1.status = 200) :
    ∃ d A, w.file = some d ∧ w.writable = true ∧ body.get "availableDates" = some (.arr A) ∧
      (putAvailable w body).2 =
        { file := some { d with availableDates := A }, writable := true,
          log := w.log ++ [Op.read, Op.write { d with availableDates := A }] } := by
  by_cases hb : ∃ A, body.get "availableDates" = some (.arr A)
  · obtain ⟨A, hA⟩ := hb
    rw [putAvailable_accept w body A hA] at h ⊢
    cases hf : w.file <;> cases hw : w.writable <;> simp [hf, hw] at h ⊢
    exact hA
  · rw [putAvailable_reject w body (fun l hl => hb ⟨l, hl⟩)] at h
    simp at h

theorem putOccupied_success (w : World) (body : JVal)
    (h : (putOccupied w body).1.status = 200) :
    ∃ d A, w.file = some d ∧ w.writable = true ∧ body.get "occupiedDates" = some (.arr A) ∧
      (putOccupied w body).2 =
        { file := some { d with occupiedDates := A }, writable := true,
          log := w.log ++ [Op.read, Op.write { d with occupiedDates := A }] } := by
  by_cases hb : ∃ A, body.get "occupiedDates" = some (.arr A)
  · obtain ⟨A, hA⟩ := hb
    rw [putOccupied_accept w body A hA] at h ⊢
    cases hf : w.file <;> cases hw : w.writable <;> simp [hf, hw] at h ⊢
    exact hA
  · rw [putOccupied_reject w body (fun l hl => hb ⟨l, hl⟩)] at h
    simp at h

theorem patchAvailable_success (w : World) (body : JVal)
    (h : (patchAvailable w body).1.status = 200) :
    ∃ d A, w.file = some d ∧ w.writable = true ∧ body.get "availableDates" = some (.arr A) ∧
      (patchAvailable w body).2 =
        { file := some { d with availableDates := arrayFromSet (d.availableDates ++ A) },
          writable := true,
          log := w.log ++ [Op.read,
            Op.write { d with availableDates := arrayFromSet (d.availableDates ++ A) }] } := by
  by_cases hb : ∃ A, body.get "availableDates" = some (.arr A)
  · obtain ⟨A, hA⟩ := hb
    rw [patchAvailable_accept w body A hA] at h ⊢
    cases hf : w.file <;> cases hw : w.writable <;> simp [hf, hw] at h ⊢
    exact ⟨A, hA, rfl⟩
  · rw [patchAvailable_reject w body (fun l hl => hb ⟨l, hl⟩)] at h
    simp at h

theorem patchOccupied_success (w : World) (body : JVal)
    (h : (patchOccupied w body).1.status = 200) :
    ∃ d A, w.file = some d ∧ w.writable = true ∧ body.get "occupiedDates" = some (.arr A) ∧
      (patchOccupied w body).2 =
        { file := some { d with occupiedDates := arrayFromSet (d.occupiedDates ++ A) },
          writable := true,
          log := w.log ++ [Op.read,
            Op.write { d with occupiedDates := arrayFromSet (d.occupiedDates ++ A) }] } := by
  by_cases hb : ∃ A, body.get "occupiedDates" = some (.arr A)
  · obtain ⟨A, hA⟩ := hb
    rw [patchOccupied_accept w body A hA] at h ⊢
    cases hf : w.file <;> cases hw : w.writable <;> simp [hf, hw] at h ⊢
    exact ⟨A, hA, rfl⟩
  · rw [patchOccupied_reject w body (fun l hl => hb ⟨l, hl⟩)] at h
    simp at h

theorem deleteAvailable_success (w : World) (h : (deleteAvailable w).1.status = 200) :
    ∃ d, w.file = some d ∧ w.writable = true ∧
      (deleteAvailable w).2 =
        { file := some { d with availableDates := [] }, writable := true,
          log := w.log ++ [Op.read, Op.write { d with availableDates := [] }] } := by
  rw [deleteAvailable_eq] at h ⊢
  cases hf : w.file <;> cases hw : w.writable <;> simp [hf, hw] at h ⊢

theorem deleteOccupied_success (w : World) (h : (deleteOccupied w).1.status = 200) :
    ∃ d, w.file = some d ∧ w.writable = true ∧
      (deleteOccupied w).2 =
        { file := some { d with occupiedDates := [] }, writable := true,
          log := w.log ++ [Op.read, Op.write { d with occupiedDates := [] }] } := by
  rw [deleteOccupied_eq] at h ⊢
  cases hf : w.file <;> cases hw : w.writable <;> simp [hf, hw] at h ⊢

theorem postAvailable_success (z : Zone) (fuel : Nat) (w : World) (body : JVal)
    (r : Response) (w1 : World)
    (h : postAvailable z fuel w body = some (r, w1)) (hr : r.status = 200) :
    ∃ d dates, w.file = some d ∧ w.writable = true ∧
      generateDates z fuel (body.get "fromDate") (body.get "toDate") = some (.ok dates) ∧
      r.body = .obj [("message", .str "Available dates updated successfully"),
        ("availableDates", .arr (arrayFromSet (d.availableDates ++ dates)))] ∧
      w1 = { file := some { d with availableDates := arrayFromSet (d.availableDates ++ dates) },
             writable := true,
             log := w.log ++ [Op.read,
               Op.write { d with
                 availableDates := arrayFromSet (d.availableDates ++ dates) }] } := by
  by_cases hb : truthy (body.get "fromDate") = true ∧ truthy (body.get "toDate") = true
  · rw [postAvailable_accept z fuel w body hb.1 hb.2] at h
    cases hf : w.file with
    | none => simp [hf] at h; rw [← h.1] at hr; simp at hr
    | some d =>
      simp only [hf] at h
      cases hg : generateDates z fuel (body.get "fromDate") (body.get "toDate") with
      | none => simp [hg] at h
      | some res =>
        cases res with
        | error e => simp [hg] at h; rw [← h.1] at hr; simp at hr
        | ok dates =>
          simp only [hg] at h
          cases hw : w.writable with
          | false => simp [hw] at h; rw [← h.1] at hr; simp at hr
          | true =>
            simp [hw] at h
            refine ⟨d, dates, rfl, rfl, rfl, ?_, h.2.symm⟩
            rw [← h.1]
  · have hb' : truthy (body.get "fromDate") = false ∨ truthy (body.get "toDate") = false := by
      by_cases h1 : truthy (body.get "fromDate") = true
      · right; simpa using fun h2 => hb ⟨h1, h2⟩
      · left; simpa using h1
    rw [postAvailable_reject z fuel w body hb'] at h
    simp at h
    rw [← h.1] at hr
    simp at hr

theorem postOccupied_success (z : Zone) (fuel : Nat) (w : World) (body : JVal)
    (r : Response) (w1 : World)
    (h : postOccupied z fuel w body = some (r, w1)) (hr : r.status = 200) :
    ∃ d dates, w.file = some d ∧ w.writable = true ∧
      generateDates z fuel (body.get "fromDate") (body.get "toDate") = some (.ok dates) ∧
      r.body = .obj [("message", .str "OccupiedDates dates updated successfully"),
        ("occupiedDates", .arr (arrayFromSet (d.occupiedDates ++ dates)))] ∧
      w1 = { file := some { d with occupiedDates := arrayFromSet (d.occupiedDates ++ dates) },
             writable := true,
             log := w.log ++ [Op.read,
               Op.write { d with
                 occupiedDates := arrayFromSet (d.occupiedDates ++ dates) }] } := by
  by_cases hb : truthy (body.get "fromDate") = true ∧ truthy (body.get "toDate") = true
  · rw [postOccupied_accept z fuel w body hb.1 hb.2] at h
    cases hf : w.file with
    | none => simp [hf] at h; rw [← h.1] at hr; simp at hr
    | some d =>
      simp only [hf] at h
      cases hg : generateDates z fuel (body.get "fromDate") (body.get "toDate") with
      | none => simp [hg] at h
      | some res =>
        cases res with
        | error e => simp [hg] at h; rw [← h.1] at hr; simp at hr
        | ok dates =>
          simp only [hg] at h
          cases hw : w.writable with
          | false => simp [hw] at h; rw [← h.1] at hr; simp at hr
          | true =>
            simp [hw] at h
            refine ⟨d, dates, rfl, rfl, rfl, ?_, h.2.symm⟩
            rw [← h.1]
  · have hb' : truthy (body.get "fromDate") = false ∨ truthy (body.get "toDate") = false := by
      by_cases h1 : truthy (body.get "fromDate") = true
      · right; simpa using fun h2 => hb ⟨h1, h2⟩
      · left; simpa using h1
    rw [postOccupied_reject z fuel w body hb'] at h
    simp at h
    rw [← h.1] at hr
    simp at hr


/-! ### Merge, replace, clear -/

/-- C2. Merge is a set union: with a readable document `d` and writable storage,
PATCH with the input array `I` answers 200, returns the collection `R` it
stores, a string is in `R` exactly when it is in the stored collection or in
`I`, and no string occurs twice in `R`. -/
theorem patch_is_set_union (w : World) (d : Doc) (body : JVal) (I : List JVal)
    (hfile : w.file = some d) (hw : w.writable = true) :
    (body.get "availableDates" = some (.arr I) →
      ∃ R, patchAvailable w body =
          (⟨200, .obj [("message", .str "Available dates updated successfully"),
                       ("availableDates", .arr R)]⟩,
            { file := some { d with availableDates := R }, writable := true,
              log := w.log ++ [Op.read, Op.write { d with availableDates := R }] }) ∧
        (∀ s, JVal.str s ∈ R ↔ JVal.str s ∈ d.availableDates ∨ JVal.str s ∈ I) ∧
        (strings R).Nodup) ∧
    (body.get "occupiedDates" = some (.arr I) →
      ∃ R, patchOccupied w body =
          (⟨200, .obj [("message", .str "Occupied dates updated successfully"),
                       ("occupiedDates", .arr R)]⟩,
            { file := some { d with occupiedDates := R }, writable := true,
              log := w.log ++ [Op.read, Op.write { d with occupiedDates := R }] }) ∧
        (∀ s, JVal.str s ∈ R ↔ JVal.str s ∈ d.occupiedDates ∨ JVal.str s ∈ I) ∧
        (strings R).Nodup) := by
  constructor
  · intro hb
    refine ⟨arrayFromSet (d.availableDates ++ I), ?_, ?_, ?_⟩
    · rw [patchAvailable_accept w body I hb]
      simp [hfile, hw]
    · intro s
      rw [str_mem_arrayFromSet, List.mem_append]
    · exact nodup_strings_of_dupFree (dupFree_arrayFromSet _)
  · intro hb
    refine ⟨arrayFromSet (d.occupiedDates ++ I), ?_, ?_, ?_⟩
    · rw [patchOccupied_accept w body I hb]
      simp [hfile, hw]
    · intro s
      rw [str_mem_arrayFromSet, List.mem_append]
    · exact nodup_strings_of_dupFree (dupFree_arrayFromSet _)

/-- Witness of C2: merging `["2024-01-01", "2024-01-02", "2024-01-02"]` into the
sample document. -/
theorem patch_is_set_union_witness :
    ∃ R, patchAvailable sampleWorld
        (.obj [("availableDates",
          .arr [.str "2024-01-01", .str "2024-01-02", .str "2024-01-02"])]) =
          (⟨200, .obj [("message", .str "Available dates updated successfully"),
                       ("availableDates", .arr R)]⟩,
            { file := some { sampleDoc with availableDates := R }, writable := true,
              log := sampleWorld.log ++
                [Op.read, Op.write { sampleDoc with availableDates := R }] }) ∧
        (∀ s, JVal.str s ∈ R ↔ JVal.str s ∈ sampleDoc.availableDates ∨
          JVal.str s ∈ [JVal.str "2024-01-01", .str "2024-01-02", .str "2024-01-02"]) ∧
        (strings R).Nodup :=
  (patch_is_set_union sampleWorld sampleDoc _ _ rfl rfl).1 rfl

/-- C8. Idempotence of replace: with a readable document `d` and writable
storage, PUT with the array `A` answers 200 and stores `A` itself as the
targeted collection (same elements, same order, nothing removed); a second PUT
with the same body answers 200 and leaves the stored document as it was after
the first. -/
theorem put_replaces_and_is_idempotent (w : World) (d : Doc) (body : JVal) (A : List JVal)
    (hfile : w.file = some d) (hw : w.writable = true) :
    (body.get "availableDates" = some (.arr A) →
      (putAvailable w body).1.status = 200 ∧
      (putAvailable w body).2.file = some { d with availableDates := A } ∧
      (putAvailable (putAvailable w body).2 body).1.status = 200 ∧
      (putAvailable (putAvailable w body).2 body).2.file = (putAvailable w body).2.file) ∧
    (body.get "occupiedDates" = some (.arr A) →
      (putOccupied w body).1.status = 200 ∧
      (putOccupied w body).2.file = some { d with occupiedDates := A } ∧
      (putOccupied (putOccupied w body).2 body).1.status = 200 ∧
      (putOccupied (putOccupied w body).2 body).2.file = (putOccupied w body).2.file) := by
  constructor
  · intro hb
    have h1 : putAvailable w body =
        (⟨200, messageBody "Available dates updated successfully"⟩,
          { file := some { d with availableDates := A }, writable := true,
            log := w.log ++ [Op.read, Op.write { d with availableDates := A }] }) := by
      rw [putAvailable_accept w body A hb]; simp [hfile, hw]
    rw [h1, putAvailable_accept _ body A hb]
    simp
  · intro hb
    have h1 : putOccupied w body =
        (⟨200, messageBody "Occupied dates updated successfully"⟩,
          { file := some { d with occupiedDates := A }, writable := true,
            log := w.log ++ [Op.read, Op.write { d with occupiedDates := A }] }) := by
      rw [putOccupied_accept w body A hb]; simp [hfile, hw]
    rw [h1, putOccupied_accept _ body A hb]
    simp

/-- Witness of C8: replacing the available dates of the sample document by an
array that holds one date twice. -/
theorem put_replaces_and_is_idempotent_witness :
    (putAvailable sampleWorld sampleDuplicateBody).1.status = 200 ∧
    (putAvailable sampleWorld sampleDuplicateBody).2.file =
      some { sampleDoc with
        availableDates := [.str "2024-05-01", .str "2024-05-01"] } ∧
    (putAvailable (putAvailable sampleWorld sampleDuplicateBody).2
      sampleDuplicateBody).1.status = 200 ∧
    (putAvailable (putAvailable sampleWorld sampleDuplicateBody).2
      sampleDuplicateBody).2.file = (putAvailable sampleWorld sampleDuplicateBody).2.file :=
  (put_replaces_and_is_idempotent sampleWorld sampleDoc sampleDuplicateBody _ rfl rfl).1 rfl

/-- C9. Clear yields empty: with a readable document `d` and writable storage,
DELETE answers 200 and writes the document `d` with the targeted collection
replaced by the empty array; and whenever a DELETE answers 200, the targeted
collection in storage is empty. -/
theorem delete_yields_empty (w : World) :
    (∀ d, w.file = some d → w.writable = true →
      deleteAvailable w =
        (⟨200, messageBody "Available dates deleted successfully"⟩,
          { file := some { d with availableDates := [] }, writable := true,
            log := w.log ++ [Op.read, Op.write { d with availableDates := [] }] }) ∧
      deleteOccupied w =
        (⟨200, messageBody "Occupied dates deleted successfully"⟩,
          { file := some { d with occupiedDates := [] }, writable := true,
            log := w.log ++ [Op.read, Op.write { d with occupiedDates := [] }] })) ∧
    ((deleteAvailable w).1.status = 200 →
      ∃ d, (deleteAvailable w).2.file = some d ∧ d.availableDates = []) ∧
    ((deleteOccupied w).1.status = 200 →
      ∃ d, (deleteOccupied w).2.file = some d ∧ d.occupiedDates = []) := by
  refine ⟨?_, ?_, ?_⟩
  · intro d hfile hw
    rw [deleteAvailable_eq, deleteOccupied_eq]
    simp [hfile, hw]
  · rw [deleteAvailable_eq]
    cases hf : w.file <;> cases hw : w.writable <;> simp
  · rw [deleteOccupied_eq]
    cases hf : w.file <;> cases hw : w.writable <;> simp

/-- Witness of C9: clearing the available dates of the sample document. -/
theorem delete_yields_empty_witness :
    deleteAvailable sampleWorld =
      (⟨200, messageBody "Available dates deleted successfully"⟩,
        { file := some { sampleDoc with availableDates := [] }, writable := true,
          log := sampleWorld.log ++
            [Op.read, Op.write { sampleDoc with availableDates := [] }] }) :=
  ((delete_yields_empty sampleWorld).1 sampleDoc rfl rfl).1

/-! ### Validation -/

/-- C4. Validation rejects malformed input before any storage access: a PUT or
PATCH whose body field is absent or is not an array, and a POST in which
`fromDate` or `toDate` is absent, answers 400 and returns the world as it found
it: the log of storage operations gains neither a read nor a write and the file
is unchanged. -/
theorem validation_rejects_before_storage (z : Zone) (fuel : Nat) (w : World) (body : JVal) :
    ((∀ l, body.get "availableDates" ≠ some (.arr l)) →
      putAvailable w body = (⟨400, errorBody "Invalid availableDates data"⟩, w) ∧
      patchAvailable w body = (⟨400, errorBody "Invalid availableDates data"⟩, w)) ∧
    ((∀ l, body.get "occupiedDates" ≠ some (.arr l)) →
      putOccupied w body = (⟨400, errorBody "Invalid occupiedDates data"⟩, w) ∧
      patchOccupied w body = (⟨400, errorBody "Invalid occupiedDates data"⟩, w)) ∧
    ((body.get "fromDate" = none ∨ body.get "toDate" = none) →
      postAvailable z fuel w body =
        some (⟨400, errorBody "Invalid fromDate or toDate data"⟩, w) ∧
      postOccupied z fuel w body =
        some (⟨400, errorBody "Invalid fromDate or toDate data"⟩, w)) := by
  refine ⟨fun h => ⟨putAvailable_reject w body h, patchAvailable_reject w body h⟩,
    fun h => ⟨putOccupied_reject w body h, patchOccupied_reject w body h⟩, ?_⟩
  intro h
  have h' : truthy (body.get "fromDate") = false ∨ truthy (body.get "toDate") = false := by
    rcases h with h | h
    · left; rw [h]; rfl
    · right; rw [h]; rfl
  exact ⟨postAvailable_reject z fuel w body h', postOccupied_reject z fuel w body h'⟩

/-- Witness of C4: the two requests of the specification, a PUT whose field is
the string `"not-an-array"` and a POST without `toDate`. -/
theorem validation_rejects_before_storage_witness :
    putAvailable sampleWorld (.obj [("availableDates", .str "not-an-array")]) =
      (⟨400, errorBody "Invalid availableDates data"⟩, sampleWorld) ∧
    postAvailable (Zone.fixed 0) 0 sampleWorld (.obj [("fromDate", .str "2024-01-01")]) =
      some (⟨400, errorBody "Invalid fromDate or toDate data"⟩, sampleWorld) :=
  ⟨((validation_rejects_before_storage (Zone.fixed 0) 0 sampleWorld
      (.obj [("availableDates", .str "not-an-array")])).1
        (by intro l h; exact absurd h (by simp [JVal.get, List.lookup]))).1,
   ((validation_rejects_before_storage (Zone.fixed 0) 0 sampleWorld
      (.obj [("fromDate", .str "2024-01-01")])).2.2 (Or.inr rfl)).1⟩


/-- C5, counterexample. An array that holds a number, `null` and a nested
object is accepted by PUT and by PATCH: the answer is 200, not 400, and the
stored collection is changed to hold these values. -/
theorem put_patch_accept_non_strings :
    (putAvailable sampleWorld sampleMixedBody).1.status = 200 ∧
    (putAvailable sampleWorld sampleMixedBody).2.file =
      some ⟨[.num 1, .null, .obj [("day", .str "2024-05-01")]], [.str "2024-02-01"]⟩ ∧
    (patchAvailable sampleWorld sampleMixedBody).1.status = 200 ∧
    (patchAvailable sampleWorld sampleMixedBody).2.file =
      some ⟨[.str "2024-01-01", .num 1, .null, .obj [("day", .str "2024-05-01")]],
        [.str "2024-02-01"]⟩ :=
  ⟨rfl, rfl, rfl, rfl⟩

/-- C5, amended. PUT and PATCH check only that the body field is an array: when
it is absent or not an array the answer is 400 and the world is returned as
found; when it is an array, whatever its elements, the answer is never 400, and
with a readable document and writable storage it is 200, PUT storing the array
as given and PATCH storing the merged collection. -/
theorem put_patch_accept_exactly_arrays (w : World) (body : JVal) :
    ((∀ l, body.get "availableDates" ≠ some (.arr l)) →
      putAvailable w body = (⟨400, errorBody "Invalid availableDates data"⟩, w) ∧
      patchAvailable w body = (⟨400, errorBody "Invalid availableDates data"⟩, w)) ∧
    ((∀ l, body.get "occupiedDates" ≠ some (.arr l)) →
      putOccupied w body = (⟨400, errorBody "Invalid occupiedDates data"⟩, w) ∧
      patchOccupied w body = (⟨400, errorBody "Invalid occupiedDates data"⟩, w)) ∧
    (∀ A, body.get "availableDates" = some (.arr A) →
      (putAvailable w body).1.status ≠ 400 ∧ (patchAvailable w body).1.status ≠ 400 ∧
      ∀ d, w.file = some d → w.writable = true →
        (putAvailable w body).1.status = 200 ∧
        (putAvailable w body).2.file = some { d with availableDates := A } ∧
        (patchAvailable w body).1.status = 200 ∧
        (patchAvailable w body).2.file =
          some { d with availableDates := arrayFromSet (d.availableDates ++ A) }) ∧
    (∀ A, body.get "occupiedDates" = some (.arr A) →
      (putOccupied w body).1.status ≠ 400 ∧ (patchOccupied w body).1.status ≠ 400 ∧
      ∀ d, w.file = some d → w.writable = true →
        (putOccupied w body).1.status = 200 ∧
        (putOccupied w body).2.file = some { d with occupiedDates := A } ∧
        (patchOccupied w body).1.status = 200 ∧
        (patchOccupied w body).2.file =
          some { d with occupiedDates := arrayFromSet (d.occupiedDates ++ A) }) := by
  refine ⟨fun h => ⟨putAvailable_reject w body h, patchAvailable_reject w body h⟩,
    fun h => ⟨putOccupied_reject w body h, patchOccupied_reject w body h⟩, ?_, ?_⟩
  · intro A hA
    rw [putAvailable_accept w body A hA, patchAvailable_accept w body A hA]
    refine ⟨?_, ?_, ?_⟩
    · cases hf : w.file <;> cases hw : w.writable <;> simp
    · cases hf : w.file <;> cases hw : w.writable <;> simp
    · intro d hf hw
      simp [hf, hw]
  · intro A hA
    rw [putOccupied_accept w body A hA, patchOccupied_accept w body A hA]
    refine ⟨?_, ?_, ?_⟩
    · cases hf : w.file <;> cases hw : w.writable <;> simp
    · cases hf : w.file <;> cases hw : w.writable <;> simp
    · intro d hf hw
      simp [hf, hw]

/-! ### Invariants of the stored document -/

/-- C3, counterexample. Starting from the sample document, whose two collections
are duplicate-free, a PUT with an array that holds one date twice answers 200
and stores a collection with a duplicate. -/
theorem put_stores_duplicates :
    StoredDupFree sampleWorld ∧
    (putAvailable sampleWorld sampleDuplicateBody).1.status = 200 ∧
    ¬ StoredDupFree (putAvailable sampleWorld sampleDuplicateBody).2 := by
  refine ⟨⟨sampleDoc, rfl, ?_, ?_⟩, rfl, ?_⟩
  · simp [DupFree, sampleDoc]
  · simp [DupFree, sampleDoc]
  · rintro ⟨d, hd, ha, -⟩
    have hfile : (putAvailable sampleWorld sampleDuplicateBody).2.file =
        some ⟨[.str "2024-05-01", .str "2024-05-01"], [.str "2024-02-01"]⟩ := rfl
    rw [hfile] at hd
    cases hd
    simp [DupFree, sameValueZero] at ha

/-- C3, amended. Starting from a document whose two collections are
duplicate-free, every successful PATCH, DELETE and POST writes a document whose
two collections are duplicate-free; a successful PUT stores the given array as
it is, so the document it writes is duplicate-free exactly when that array
is. -/
theorem mutations_keep_duplicate_free (z : Zone) (fuel : Nat) (w : World) (body : JVal)
    (h : StoredDupFree w) :
    ((patchAvailable w body).1.status = 200 → StoredDupFree (patchAvailable w body).2) ∧
    ((patchOccupied w body).1.status = 200 → StoredDupFree (patchOccupied w body).2) ∧
    ((deleteAvailable w).1.status = 200 → StoredDupFree (deleteAvailable w).2) ∧
    ((deleteOccupied w).1.status = 200 → StoredDupFree (deleteOccupied w).2) ∧
    (∀ r w1, postAvailable z fuel w body = some (r, w1) → r.status = 200 →
      StoredDupFree w1) ∧
    (∀ r w1, postOccupied z fuel w body = some (r, w1) → r.status = 200 →
      StoredDupFree w1) ∧
    (∀ A, body.get "availableDates" = some (.arr A) → (putAvailable w body).1.status = 200 →
      (StoredDupFree (putAvailable w body).2 ↔ DupFree A)) ∧
    (∀ A, body.get "occupiedDates" = some (.arr A) → (putOccupied w body).1.status = 200 →
      (StoredDupFree (putOccupied w body).2 ↔ DupFree A)) := by
  obtain ⟨d0, hd0, ha0, ho0⟩ := h
  refine ⟨?_, ?_, ?_, ?_, ?_, ?_, ?_, ?_⟩
  · intro hs
    obtain ⟨d, A, hf, -, -, hw1⟩ := patchAvailable_success w body hs
    rw [hw1]
    rw [hd0] at hf; cases hf
    exact ⟨_, rfl, dupFree_arrayFromSet _, ho0⟩
  · intro hs
    obtain ⟨d, A, hf, -, -, hw1⟩ := patchOccupied_success w body hs
    rw [hw1]
    rw [hd0] at hf; cases hf
    exact ⟨_, rfl, ha0, dupFree_arrayFromSet _⟩
  · intro hs
    obtain ⟨d, hf, -, hw1⟩ := deleteAvailable_success w hs
    rw [hw1]
    rw [hd0] at hf; cases hf
    exact ⟨_, rfl, List.Pairwise.nil, ho0⟩
  · intro hs
    obtain ⟨d, hf, -, hw1⟩ := deleteOccupied_success w hs
    rw [hw1]
    rw [hd0] at hf; cases hf
    exact ⟨_, rfl, ha0, List.Pairwise.nil⟩
  · intro r w1 hp hs
    obtain ⟨d, dates, hf, -, -, -, hw1⟩ := postAvailable_success z fuel w body r w1 hp hs
    rw [hw1]
    rw [hd0] at hf; cases hf
    exact ⟨_, rfl, dupFree_arrayFromSet _, ho0⟩
  · intro r w1 hp hs
    obtain ⟨d, dates, hf, -, -, -, hw1⟩ := postOccupied_success z fuel w body r w1 hp hs
    rw [hw1]
    rw [hd0] at hf; cases hf
    exact ⟨_, rfl, ha0, dupFree_arrayFromSet _⟩
  · intro A hA hs
    obtain ⟨d, A1, hf, -, hA1, hw1⟩ := putAvailable_success w body hs
    rw [hw1]
    rw [hd0] at hf; cases hf
    rw [hA] at hA1; cases hA1
    constructor
    · rintro ⟨d1, hd1, ha1, -⟩
      simp at hd1
      rw [← hd1] at ha1
      exact ha1
    · intro hA2
      exact ⟨_, rfl, hA2, ho0⟩
  · intro A hA hs
    obtain ⟨d, A1, hf, -, hA1, hw1⟩ := putOccupied_success w body hs
    rw [hw1]
    rw [hd0] at hf; cases hf
    rw [hA] at hA1; cases hA1
    constructor
    · rintro ⟨d1, hd1, -, ho1⟩
      simp at hd1
      rw [← hd1] at ho1
      exact ho1
    · intro hA2
      exact ⟨_, rfl, ha0, hA2⟩

/-- Witness of C3 (amended): a PATCH on the sample document with an array that
holds one date twice. -/
theorem mutations_keep_duplicate_free_witness :
    StoredDupFree (patchAvailable sampleWorld sampleDuplicateBody).2 :=
  (mutations_keep_duplicate_free (Zone.fixed 0) 0 sampleWorld sampleDuplicateBody
    ⟨sampleDoc, rfl, by simp [DupFree, sampleDoc], by simp [DupFree, sampleDoc]⟩).1 rfl

/-- C7. Each mutating operation changes one field only: whenever a PUT, PATCH,
DELETE or POST on `/dates/available` answers 200, the document it wrote holds
the `occupiedDates` that was read, and whenever one on `/dates/occupied` answers
200, the document it wrote holds the `availableDates` that was read. -/
theorem mutation_changes_one_field (z : Zone) (fuel : Nat) (w : World) (body : JVal) :
    ((putAvailable w body).1.status = 200 → KeepsOccupied w (putAvailable w body).2) ∧
    ((patchAvailable w body).1.status = 200 → KeepsOccupied w (patchAvailable w body).2) ∧
    ((deleteAvailable w).1.status = 200 → KeepsOccupied w (deleteAvailable w).2) ∧
    (∀ r w1, postAvailable z fuel w body = some (r, w1) → r.status = 200 →
      KeepsOccupied w w1) ∧
    ((putOccupied w body).1.status = 200 → KeepsAvailable w (putOccupied w body).2) ∧
    ((patchOccupied w body).1.status = 200 → KeepsAvailable w (patchOccupied w body).2) ∧
    ((deleteOccupied w).1.status = 200 → KeepsAvailable w (deleteOccupied w).2) ∧
    (∀ r w1, postOccupied z fuel w body = some (r, w1) → r.status = 200 →
      KeepsAvailable w w1) := by
  refine ⟨?_, ?_, ?_, ?_, ?_, ?_, ?_, ?_⟩
  · intro hs
    obtain ⟨d, A, hf, -, -, hw1⟩ := putAvailable_success w body hs
    rw [hw1]
    exact ⟨d, _, hf, rfl, rfl, rfl⟩
  · intro hs
    obtain ⟨d, A, hf, -, -, hw1⟩ := patchAvailable_success w body hs
    rw [hw1]
    exact ⟨d, _, hf, rfl, rfl, rfl⟩
  · intro hs
    obtain ⟨d, hf, -, hw1⟩ := deleteAvailable_success w hs
    rw [hw1]
    exact ⟨d, _, hf, rfl, rfl, rfl⟩
  · intro r w1 hp hs
    obtain ⟨d, dates, hf, -, -, -, hw1⟩ := postAvailable_success z fuel w body r w1 hp hs
    rw [hw1]
    exact ⟨d, _, hf, rfl, rfl, rfl⟩
  · intro hs
    obtain ⟨d, A, hf, -, -, hw1⟩ := putOccupied_success w body hs
    rw [hw1]
    exact ⟨d, _, hf, rfl, rfl, rfl⟩
  · intro hs
    obtain ⟨d, A, hf, -, -, hw1⟩ := patchOccupied_success w body hs
    rw [hw1]
    exact ⟨d, _, hf, rfl, rfl, rfl⟩
  · intro hs
    obtain ⟨d, hf, -, hw1⟩ := deleteOccupied_success w hs
    rw [hw1]
    exact ⟨d, _, hf, rfl, rfl, rfl⟩
  · intro r w1 hp hs
    obtain ⟨d, dates, hf, -, -, -, hw1⟩ := postOccupied_success z fuel w body r w1 hp hs
    rw [hw1]
    exact ⟨d, _, hf, rfl, rfl, rfl⟩


/-! ### Calendar arithmetic -/

/-- The year found by `YearFromDay` is the one the standard defines: the year
whose first day is at or before `day` while the first day of the next year is
after it. -/
theorem yearFromDay_spec (day : Int) :
    DayFromYear (YearFromDay day) ≤ day ∧ day < DayFromYear (YearFromDay day + 1) := by
  unfold YearFromDay
  simp only
  generalize hy : 1970 + day * 400 / 146097 = y
  have e1 : y - 1 + 1 = y := by omega
  split_ifs with h1 h2
  · rw [e1]
    refine ⟨?_, h1⟩
    unfold DayFromYear at *
    omega
  · refine ⟨not_lt.mp (by omega), ?_⟩
    unfold DayFromYear at *
    omega
  · exact ⟨by omega, by omega⟩

theorem dayFromYear_succ (y : Int) : DayFromYear (y + 1) = DayFromYear y + DaysInYear y := by
  unfold DayFromYear DaysInYear
  split_ifs <;> omega

theorem dayFromYear_mono {y1 y2 : Int} (h : y1 ≤ y2) : DayFromYear y1 ≤ DayFromYear y2 := by
  unfold DayFromYear
  omega

theorem monthOfYearDay_cases (d l : Int) :
    (d < 31 ∧ monthOfYearDay d l = 0) ∨
    (31 ≤ d ∧ d < 59 + l ∧ monthOfYearDay d l = 1) ∨
    (59 + l ≤ d ∧ d < 90 + l ∧ monthOfYearDay d l = 2) ∨
    (90 + l ≤ d ∧ d < 120 + l ∧ monthOfYearDay d l = 3) ∨
    (120 + l ≤ d ∧ d < 151 + l ∧ monthOfYearDay d l = 4) ∨
    (151 + l ≤ d ∧ d < 181 + l ∧ monthOfYearDay d l = 5) ∨
    (181 + l ≤ d ∧ d < 212 + l ∧ monthOfYearDay d l = 6) ∨
    (212 + l ≤ d ∧ d < 243 + l ∧ monthOfYearDay d l = 7) ∨
    (243 + l ≤ d ∧ d < 273 + l ∧ monthOfYearDay d l = 8) ∨
    (273 + l ≤ d ∧ d < 304 + l ∧ monthOfYearDay d l = 9) ∨
    (304 + l ≤ d ∧ d < 334 + l ∧ monthOfYearDay d l = 10) ∨
    (334 + l ≤ d ∧ monthOfYearDay d l = 11) := by
  unfold monthOfYearDay
  by_cases h1 : d < 31
  · left; exact ⟨h1, if_pos h1⟩
  rw [if_neg h1]; right
  by_cases h2 : d < 59 + l
  · left; exact ⟨by omega, h2, if_pos h2⟩
  rw [if_neg h2]; right
  by_cases h3 : d < 90 + l
  · left; exact ⟨by omega, h3, if_pos h3⟩
  rw [if_neg h3]; right
  by_cases h4 : d < 120 + l
  · left; exact ⟨by omega, h4, if_pos h4⟩
  rw [if_neg h4]; right
  by_cases h5 : d < 151 + l
  · left; exact ⟨by omega, h5, if_pos h5⟩
  rw [if_neg h5]; right
  by_cases h6 : d < 181 + l
  · left; exact ⟨by omega, h6, if_pos h6⟩
  rw [if_neg h6]; right
  by_cases h7 : d < 212 + l
  · left; exact ⟨by omega, h7, if_pos h7⟩
  rw [if_neg h7]; right
  by_cases h8 : d < 243 + l
  · left; exact ⟨by omega, h8, if_pos h8⟩
  rw [if_neg h8]; right
  by_cases h9 : d < 273 + l
  · left; exact ⟨by omega, h9, if_pos h9⟩
  rw [if_neg h9]; right
  by_cases h10 : d < 304 + l
  · left; exact ⟨by omega, h10, if_pos h10⟩
  rw [if_neg h10]; right
  by_cases h11 : d < 334 + l
  · left; exact ⟨by omega, h11, if_pos h11⟩
  rw [if_neg h11]; right
  exact ⟨by omega, rfl⟩

theorem monthOfYearDay_range (d l : Int) :
    0 ≤ monthOfYearDay d l ∧ monthOfYearDay d l ≤ 11 := by
  rcases monthOfYearDay_cases d l with h | h | h | h | h | h | h | h | h | h | h | h <;>
    omega

theorem daysBefore_add_dateOfYearDay (d l : Int) :
    daysBefore l (monthOfYearDay d l) + dateOfYearDay d l (monthOfYearDay d l) = d + 1 := by
  rcases monthOfYearDay_cases d l with h | h | h | h | h | h | h | h | h | h | h | h
  · rw [h.2]; show 0 + (d + 1) = d + 1; omega
  · rw [h.2.2]; show 31 + (d - 30) = d + 1; omega
  · rw [h.2.2]; show 59 + l + (d - 58 - l) = d + 1; omega
  · rw [h.2.2]; show 90 + l + (d - 89 - l) = d + 1; omega
  · rw [h.2.2]; show 120 + l + (d - 119 - l) = d + 1; omega
  · rw [h.2.2]; show 151 + l + (d - 150 - l) = d + 1; omega
  · rw [h.2.2]; show 181 + l + (d - 180 - l) = d + 1; omega
  · rw [h.2.2]; show 212 + l + (d - 211 - l) = d + 1; omega
  · rw [h.2.2]; show 243 + l + (d - 242 - l) = d + 1; omega
  · rw [h.2.2]; show 273 + l + (d - 272 - l) = d + 1; omega
  · rw [h.2.2]; show 304 + l + (d - 303 - l) = d + 1; omega
  · rw [h.2]; show 334 + l + (d - 333 - l) = d + 1; omega

theorem truncate_one (n : Int) : truncate n 1 = n := by
  unfold truncate
  rw [Nat.cast_one]
  split_ifs <;> omega

theorem makeDay_of_time (t dt : Int) :
    MakeDay (.fin (YearFromTime t) 1) (.fin (MonthFromTime t) 1) (.fin dt 1) =
      some (Day t - DateFromTime t + dt) := by
  have hr := monthOfYearDay_range (DayWithinYear t) (InLeapYear t)
  have hs := daysBefore_add_dateOfYearDay (DayWithinYear t) (InLeapYear t)
  have hm1 : MonthFromTime t / 12 = 0 := by unfold MonthFromTime; omega
  have hm2 : MonthFromTime t % 12 = MonthFromTime t := by unfold MonthFromTime; omega
  simp only [MakeDay, truncate_one, hm1, hm2, add_zero]
  congr 1
  unfold daysBeforeMonth DateFromTime
  unfold InLeapYear at hs
  unfold MonthFromTime
  unfold InLeapYear
  unfold DayWithinYear at hs ⊢
  omega

/-- One step `d.setDate(d.getDate() + 1)` moves local time forward by one
day. -/
theorem setDate_next (z : Zone) (t0 : Int) :
    setDate z (some t0) ((getDate z (some t0)).add 1) =
      TimeClip (some (LocalTime z t0 + msPerDay
        - z.localTZA (LocalTime z t0 + msPerDay) false)) := by
  simp only [setDate, getDate, JSNum.add, Nat.cast_one, mul_one, makeDay_of_time, MakeDate,
    Option.map_some', UTC]
  have h : (Day (LocalTime z t0) - DateFromTime (LocalTime z t0) +
      (DateFromTime (LocalTime z t0) + 1)) * msPerDay + TimeWithinDay (LocalTime z t0) =
      LocalTime z t0 + msPerDay := by
    unfold Day TimeWithinDay msPerDay
    omega
  rw [h]

/-! ### The loop of the POST handlers -/

theorem toISOString_of_dateLE {d toD : TimeValue} (h : dateLE d toD = true) :
    ∃ iso, toISOString d = .ok iso := by
  cases d with
  | none => simp [dateLE] at h
  | some t => exact ⟨_, rfl⟩

theorem rangeLoop_exit (z : Zone) (toD d : TimeValue) (acc : List JVal) (fuel : Nat)
    (h : dateLE d toD = false) : rangeLoop z toD (fuel + 1) d acc = some (.ok acc) := by
  simp [rangeLoop, h]

theorem rangeLoop_step (z : Zone) (toD d : TimeValue) (iso : String) (acc : List JVal)
    (fuel : Nat) (h : dateLE d toD = true) (hiso : toISOString d = .ok iso) :
    rangeLoop z toD (fuel + 1) d acc =
      rangeLoop z toD fuel (setDate z d ((getDate z d).add 1))
        (acc ++ [.str ((split iso 'T').headD "")]) := by
  simp [rangeLoop, h, hiso]

theorem advances_of_steady {z : Zone} (hz : z.Steady) : z.Advances := by
  intro t
  have h1 := hz t (LocalTime z t + msPerDay) true false
  rw [abs_lt] at h1
  unfold LocalTime at h1 ⊢
  omega

theorem setDate_next_gt (z : Zone) (hz : z.Advances) (t a : Int)
    (h : setDate z (some t) ((getDate z (some t)).add 1) = some a) : t < a := by
  rw [setDate_next] at h
  unfold TimeClip at h
  simp only at h
  split_ifs at h
  simp only [Option.some.injEq] at h
  have h1 := hz t
  omega

theorem rangeLoop_terminates (z : Zone) (hz : z.Advances) (toD : TimeValue) :
    ∀ (k : Nat) (d : TimeValue) (acc : List JVal),
      (∀ a b, d = some a → toD = some b → b - a < (k : Int)) →
      ∃ dates, ∀ fuel, k + 1 ≤ fuel →
        rangeLoop z toD fuel d acc = some (.ok (acc ++ dates)) := by
  intro k
  induction k with
  | zero =>
    intro d acc hk
    refine ⟨[], ?_⟩
    intro fuel hfuel
    obtain ⟨n, rfl⟩ : ∃ n, fuel = n + 1 := ⟨fuel - 1, by omega⟩
    rw [List.append_nil]
    apply rangeLoop_exit
    cases d with
    | none => rfl
    | some a =>
      cases toD with
      | none => rfl
      | some b =>
        have := hk a b rfl rfl
        simp only [dateLE, decide_eq_false_iff_not]
        omega
  | succ k ih =>
    intro d acc hk
    cases hle : dateLE d toD with
    | false =>
      refine ⟨[], ?_⟩
      intro fuel hfuel
      obtain ⟨n, rfl⟩ : ∃ n, fuel = n + 1 := ⟨fuel - 1, by omega⟩
      rw [List.append_nil]
      exact rangeLoop_exit z toD d acc n hle
    | true =>
      cases d with
      | none => simp [dateLE] at hle
      | some a =>
        obtain ⟨iso, hiso⟩ := toISOString_of_dateLE hle
        have hfecha := fun fuel => rangeLoop_step z toD (some a) iso acc fuel hle hiso
        generalize (split iso 'T').headD "" = fecha at hfecha
        obtain ⟨dates, hd⟩ := ih (setDate z (some a) ((getDate z (some a)).add 1))
          (acc ++ [.str fecha]) (by
            intro a1 b h1 h2
            have hgt := setDate_next_gt z hz a a1 h1
            have := hk a b rfl h2
            push_cast at this
            omega)
        refine ⟨.str fecha :: dates, ?_⟩
        intro fuel hfuel
        obtain ⟨n, rfl⟩ : ∃ n, fuel = n + 1 := ⟨fuel - 1, by omega⟩
        rw [hfecha, hd n (by omega)]
        simp

theorem rangeLoop_total (z : Zone) (hz : z.Advances) (toD d : TimeValue) (acc : List JVal) :
    ∃ n dates, ∀ fuel, n ≤ fuel →
      rangeLoop z toD fuel d acc = some (.ok (acc ++ dates)) := by
  cases d with
  | none =>
    obtain ⟨dates, h⟩ := rangeLoop_terminates z hz toD 0 none acc (by intro a b h; cases h)
    exact ⟨_, dates, h⟩
  | some a =>
    cases toD with
    | none =>
      obtain ⟨dates, h⟩ := rangeLoop_terminates z hz none 0 (some a) acc
        (by intro a b _ h; cases h)
      exact ⟨_, dates, h⟩
    | some b =>
      obtain ⟨dates, h⟩ := rangeLoop_terminates z hz (some b) (b - a + 1).toNat (some a) acc
        (by
          intro a1 b1 h1 h2
          cases h1; cases h2
          omega)
      exact ⟨_, dates, h⟩


theorem steady_fixed (offset : Int) : (Zone.fixed offset).Steady := by
  intro a b i j
  simp [Zone.fixed, msPerDay]

theorem generateDates_strings (z : Zone) (fuel : Nat) (fromDate toDate : String) :
    generateDates z fuel (some (.str fromDate)) (some (.str toDate)) =
      rangeLoop z (parseDate z (split toDate '-')) fuel
        (copyDate (parseDate z (split fromDate '-'))) [] := by
  simp [generateDates, callSplit]

/-- C10. Malformed date strings never raise in range-insert: for every pair of
non-empty strings `fromDate` and `toDate`, with a readable document and
writable storage, in a zone where a local time one day later is a later
instant, the loop condition only lets a valid date through to the formatting
step, and once the loop is given enough evaluations of its condition the
handler answers 200 with the updated collection, which it has stored. -/
theorem range_insert_never_raises (z : Zone) (hz : z.Advances) (w : World) (d : Doc)
    (body : JVal) (fromDate toDate : String)
    (hfile : w.file = some d) (hw : w.writable = true)
    (hf : body.get "fromDate" = some (.str fromDate))
    (ht : body.get "toDate" = some (.str toDate))
    (hfne : fromDate ≠ "") (htne : toDate ≠ "") :
    (∀ e, dateLE e (parseDate z (split toDate '-')) = true →
      ∃ iso, toISOString e = .ok iso) ∧
    ∃ n dates, ∀ fuel, n ≤ fuel →
      generateDates z fuel (some (.str fromDate)) (some (.str toDate)) = some (.ok dates) ∧
      postAvailable z fuel w body =
        some (⟨200, .obj [("message", .str "Available dates updated successfully"),
                          ("availableDates",
                            .arr (arrayFromSet (d.availableDates ++ dates)))]⟩,
          { file := some { d with availableDates := arrayFromSet (d.availableDates ++ dates) },
            writable := true,
            log := w.log ++ [Op.read,
              Op.write { d with
                availableDates := arrayFromSet (d.availableDates ++ dates) }] }) ∧
      postOccupied z fuel w body =
        some (⟨200, .obj [("message", .str "OccupiedDates dates updated successfully"),
                          ("occupiedDates",
                            .arr (arrayFromSet (d.occupiedDates ++ dates)))]⟩,
          { file := some { d with occupiedDates := arrayFromSet (d.occupiedDates ++ dates) },
            writable := true,
            log := w.log ++ [Op.read,
              Op.write { d with
                occupiedDates := arrayFromSet (d.occupiedDates ++ dates) }] }) := by
  refine ⟨fun e he => toISOString_of_dateLE he, ?_⟩
  obtain ⟨n, dates, hloop⟩ := rangeLoop_total z hz (parseDate z (split toDate '-'))
    (copyDate (parseDate z (split fromDate '-'))) []
  refine ⟨n, dates, ?_⟩
  intro fuel hfuel
  have hg : generateDates z fuel (some (.str fromDate)) (some (.str toDate)) =
      some (.ok dates) := by
    rw [generateDates_strings, hloop fuel hfuel]
    simp
  have htf : truthy (body.get "fromDate") = true := by rw [hf]; simpa [truthy] using hfne
  have htt : truthy (body.get "toDate") = true := by rw [ht]; simpa [truthy] using htne
  refine ⟨hg, ?_, ?_⟩
  · rw [postAvailable_accept z fuel w body htf htt, hf, ht]
    simp [hfile, hg, hw]
  · rw [postOccupied_accept z fuel w body htf htt, hf, ht]
    simp [hfile, hg, hw]

/-- Witness of C10: the strings `"abc"` and `"2024-13-45"` on the sample
document, in the zone UTC. -/
theorem range_insert_never_raises_witness :
    ∃ n dates, ∀ fuel, n ≤ fuel →
      generateDates (Zone.fixed 0) fuel (some (.str "abc")) (some (.str "2024-13-45")) =
        some (.ok dates) ∧
      postAvailable (Zone.fixed 0) fuel sampleWorld
          (.obj [("fromDate", .str "abc"), ("toDate", .str "2024-13-45")]) =
        some (⟨200, .obj [("message", .str "Available dates updated successfully"),
                          ("availableDates",
                            .arr (arrayFromSet (sampleDoc.availableDates ++ dates)))]⟩,
          { file := some { sampleDoc with
              availableDates := arrayFromSet (sampleDoc.availableDates ++ dates) },
            writable := true,
            log := sampleWorld.log ++ [Op.read,
              Op.write { sampleDoc with
                availableDates := arrayFromSet (sampleDoc.availableDates ++ dates) }] }) ∧
      postOccupied (Zone.fixed 0) fuel sampleWorld
          (.obj [("fromDate", .str "abc"), ("toDate", .str "2024-13-45")]) =
        some (⟨200, .obj [("message", .str "OccupiedDates dates updated successfully"),
                          ("occupiedDates",
                            .arr (arrayFromSet (sampleDoc.occupiedDates ++ dates)))]⟩,
          { file := some { sampleDoc with
              occupiedDates := arrayFromSet (sampleDoc.occupiedDates ++ dates) },
            writable := true,
            log := sampleWorld.log ++ [Op.read,
              Op.write { sampleDoc with
                occupiedDates := arrayFromSet (sampleDoc.occupiedDates ++ dates) }] }) :=
  (range_insert_never_raises (Zone.fixed 0) (advances_of_steady (steady_fixed 0))
    sampleWorld sampleDoc
    (.obj [("fromDate", .str "abc"), ("toDate", .str "2024-13-45")]) "abc" "2024-13-45"
    rfl rfl rfl rfl (by decide) (by decide)).2

/-- Malformed dates at work, in the zone UTC: an unparseable `fromDate` adds
nothing, and the day 32 of January is read as the first of February. -/
theorem malformed_dates_examples :
    generateDates (Zone.fixed 0) 1 (some (.str "abc")) (some (.str "2024-13-45")) =
      some (.ok []) ∧
    generateDates (Zone.fixed 0) 3 (some (.str "2024-01-32")) (some (.str "2024-02-02")) =
      some (.ok [.str "2024-02-01", .str "2024-02-02"]) :=
  ⟨rfl, rfl⟩


/-! ### Reading a well-formed date -/

theorem digitChar_cases (k : Nat) :
    digitChar k ∈ ['0', '1', '2', '3', '4', '5', '6', '7', '8', '9'] := by
  unfold digitChar
  have h : k % 10 < 10 := Nat.mod_lt _ (by decide)
  generalize k % 10 = r at h
  interval_cases r <;> decide

theorem digitChar_isDigit (k : Nat) : (digitChar k).isDigit = true := by
  have h := digitChar_cases k
  generalize digitChar k = c at h
  simp only [List.mem_cons, List.mem_singleton, List.not_mem_nil, or_false] at h
  rcases h with rfl | rfl | rfl | rfl | rfl | rfl | rfl | rfl | rfl | rfl <;> rfl

theorem digitChar_not_white (k : Nat) : isStrWhiteSpace (digitChar k) = false := by
  have h := digitChar_cases k
  generalize digitChar k = c at h
  simp only [List.mem_cons, List.mem_singleton, List.not_mem_nil, or_false] at h
  rcases h with rfl | rfl | rfl | rfl | rfl | rfl | rfl | rfl | rfl | rfl <;> rfl

theorem digitChar_ne_minus (k : Nat) : digitChar k ≠ '-' := by
  have h := digitChar_cases k
  generalize digitChar k = c at h
  simp only [List.mem_cons, List.mem_singleton, List.not_mem_nil, or_false] at h
  rcases h with rfl | rfl | rfl | rfl | rfl | rfl | rfl | rfl | rfl | rfl <;> decide

theorem digitOf_digitChar (k : Nat) : digitOf 10 (digitChar k) = some (k % 10) := by
  unfold digitChar
  have h : k % 10 < 10 := Nat.mod_lt _ (by decide)
  generalize k % 10 = r at h
  interval_cases r <;> rfl

theorem nonDecimalLiteral_digits (c x : Char) (ds : List Char) (hx : x.isDigit = true) :
    nonDecimalLiteral (c :: x :: ds) = none := by
  unfold nonDecimalLiteral
  split
  · rename_i x1 ds1 heq
    simp only [List.cons.injEq] at heq
    obtain ⟨-, rfl, -⟩ := heq
    have h1 : ¬ (x = 'x' ∨ x = 'X') := by rintro (rfl | rfl) <;> simp at hx
    have h2 : ¬ (x = 'o' ∨ x = 'O') := by rintro (rfl | rfl) <;> simp at hx
    have h3 : ¬ (x = 'b' ∨ x = 'B') := by rintro (rfl | rfl) <;> simp at hx
    rw [if_neg h1, if_neg h2, if_neg h3]
  · rfl

theorem strDecimalLiteral_digit_head (c : Char) (cs : List Char) (hc : c.isDigit = true) :
    strDecimalLiteral (c :: cs) =
      match unsignedDecimal (c :: cs) with
      | some (n, d) => .fin (Int.ofNat n) d
      | none => .nan := by
  have hp : c ≠ '+' := by rintro rfl; simp at hc
  have hm : c ≠ '-' := by rintro rfl; simp at hc
  have hI : c ≠ 'I' := by rintro rfl; simp at hc
  have hrest : (match c :: cs with
      | '+' :: r => r
      | '-' :: r => r
      | _ => c :: cs) = c :: cs := by
    split <;> simp_all
  have hneg : (match c :: cs with
      | '-' :: _ => true
      | _ => false) = false := by
    split <;> simp_all
  have hinf : ¬ (c :: cs = "Infinity".data) := by
    intro h
    simp only [String.data, List.cons.injEq] at h
    exact hI h.1
  unfold strDecimalLiteral
  simp only [hrest, hneg, if_neg hinf]
  rfl

theorem padDigits_two (n : Nat) : padDigits 2 n = [digitChar (n / 10), digitChar n] := by
  simp [padDigits, List.range_succ]

theorem padDigits_four (n : Nat) :
    padDigits 4 n =
      [digitChar (n / 1000), digitChar (n / 100), digitChar (n / 10), digitChar n] := by
  simp [padDigits, List.range_succ]

theorem stringToNumber_two (a b : Nat) :
    stringToNumber (String.mk [digitChar a, digitChar b]) =
      .fin (Int.ofNat (a % 10 * 10 + b % 10)) 1 := by
  have ht : trimChars [digitChar a, digitChar b] = [digitChar a, digitChar b] := by
    simp [trimChars, List.dropWhile, digitChar_not_white]
  unfold stringToNumber
  simp only [ht, nonDecimalLiteral_digits _ _ _ (digitChar_isDigit b),
    strDecimalLiteral_digit_head _ _ (digitChar_isDigit a)]
  simp [unsignedDecimal, List.takeWhile, List.dropWhile, digitChar_isDigit, parseExponent,
    natOfDigits, digitOf_digitChar]

theorem stringToNumber_four (a b c d : Nat) :
    stringToNumber (String.mk [digitChar a, digitChar b, digitChar c, digitChar d]) =
      .fin (Int.ofNat (((a % 10 * 10 + b % 10) * 10 + c % 10) * 10 + d % 10)) 1 := by
  have ht : trimChars [digitChar a, digitChar b, digitChar c, digitChar d] =
      [digitChar a, digitChar b, digitChar c, digitChar d] := by
    simp [trimChars, List.dropWhile, digitChar_not_white]
  unfold stringToNumber
  simp only [ht, nonDecimalLiteral_digits _ _ _ (digitChar_isDigit b),
    strDecimalLiteral_digit_head _ _ (digitChar_isDigit a)]
  simp [unsignedDecimal, List.takeWhile, List.dropWhile, digitChar_isDigit, parseExponent,
    natOfDigits, digitOf_digitChar]

theorem split_isoDate (y m d : Nat) :
    split (isoDate y m d) '-' =
      [String.mk (padDigits 4 y), String.mk (padDigits 2 m), String.mk (padDigits 2 d)] := by
  simp [split, isoDate, padDigits_four, padDigits_two, splitChars, digitChar_ne_minus]

theorem toNumber_padDigits_four (y : Nat) (hy : y ≤ 9999) :
    toNumber (some (String.mk (padDigits 4 y))) = .fin y 1 := by
  rw [padDigits_four]
  simp only [toNumber, stringToNumber_four]
  have : ((y / 1000 % 10 * 10 + y / 100 % 10) * 10 + y / 10 % 10) * 10 + y % 10 = y := by
    omega
  rw [this]
  rfl

theorem toNumber_padDigits_two (m : Nat) (hm : m ≤ 99) :
    toNumber (some (String.mk (padDigits 2 m))) = .fin m 1 := by
  rw [padDigits_two]
  simp only [toNumber, stringToNumber_two]
  have : m / 10 % 10 * 10 + m % 10 = m := by omega
  rw [this]
  rfl

theorem daysInMonth_le (y m : Nat) : daysInMonth y m ≤ 31 := by
  unfold daysInMonth
  split <;> try omega
  split_ifs <;> omega

theorem parseDate_isoDate (z : Zone) (y m d : Nat) (hv : ValidDate y m d) (hy : 100 ≤ y) :
    parseDate z (split (isoDate y m d) '-') =
      TimeClip (some (civilDay y m d * msPerDay
        - z.localTZA (civilDay y m d * msPerDay) false)) := by
  obtain ⟨hy1, hm1, hm2, hd1, hd2⟩ := hv
  have hd3 := daysInMonth_le y m
  rw [split_isoDate]
  simp only [parseDate, List.getElem?_cons_zero, List.getElem?_cons_succ,
    toNumber_padDigits_four y hy1, toNumber_padDigits_two m (by omega),
    toNumber_padDigits_two d (by omega), newDate, MakeFullYear, truncate_one, JSNum.sub,
    MakeDay, MakeTime, MakeDate, UTC, Nat.cast_one, mul_one]
  have h99 : ¬ ((0 : Int) ≤ (y : Int) ∧ (y : Int) ≤ 99) := by omega
  rw [if_neg h99]
  have hq : ((m : Int) - 1) / 12 = 0 := by omega
  have hr : ((m : Int) - 1) % 12 = (m : Int) - 1 := by omega
  simp only [truncate_one, hq, hr, add_zero, Option.map_some', civilDay]
  simp

theorem leapOfYear_cases (y : Int) :
    (DaysInYear y = 366 ∧ leapOfYear y = 1) ∨ (DaysInYear y = 365 ∧ leapOfYear y = 0) := by
  unfold leapOfYear DaysInYear
  split_ifs <;> simp_all

theorem dayOfYear_bounds (y m d : Nat) (hv : ValidDate y m d) :
    daysBefore (leapOfYear y) ((m : Int) - 1) + 1 ≤
        daysBeforeMonth y ((m : Int) - 1) + (d : Int) ∧
      daysBeforeMonth y ((m : Int) - 1) + (d : Int) ≤
        (if m = 12 then 365 + leapOfYear y else daysBefore (leapOfYear y) (m : Int)) := by
  obtain ⟨-, hm1, hm2, hd1, hd2⟩ := hv
  unfold daysBeforeMonth
  unfold daysInMonth at hd2
  rcases leapOfYear_cases y with ⟨h366, hl⟩ | ⟨h365, hl⟩
  · rw [hl]
    interval_cases m <;> simp [daysBefore, h366] at hd2 ⊢ <;> omega
  · rw [hl]
    have h366 : DaysInYear (y : Int) ≠ 366 := by omega
    interval_cases m <;> simp [daysBefore, h366] at hd2 ⊢ <;> omega

theorem daysBefore_mono (l : Int) (hl : l = 0 ∨ l = 1) (m1 m2 : Nat) (h : m1 < m2)
    (h1 : 1 ≤ m1) (h2 : m2 ≤ 12) :
    daysBefore l (m1 : Int) ≤ daysBefore l ((m2 : Int) - 1) := by
  interval_cases m2 <;> interval_cases m1 <;> simp [daysBefore] <;> omega

theorem civilDay_lt (y1 m1 d1 y2 m2 d2 : Nat) (hv1 : ValidDate y1 m1 d1)
    (hv2 : ValidDate y2 m2 d2) (h : DateLT y1 m1 d1 y2 m2 d2) :
    civilDay y1 m1 d1 < civilDay y2 m2 d2 := by
  have hb1 := dayOfYear_bounds y1 m1 d1 hv1
  have hb2 := dayOfYear_bounds y2 m2 d2 hv2
  have hl1 : leapOfYear y1 = 0 ∨ leapOfYear y1 = 1 := by
    rcases leapOfYear_cases y1 with h | h <;> omega
  have hl2 : leapOfYear y2 = 0 ∨ leapOfYear y2 = 1 := by
    rcases leapOfYear_cases y2 with h | h <;> omega
  have hnn : ∀ (l : Int) (m : Nat), (l = 0 ∨ l = 1) → 1 ≤ m → m ≤ 12 →
      0 ≤ daysBefore l ((m : Int) - 1) ∧ daysBefore l ((m : Int) - 1) ≤ 334 + l := by
    intro l m hl h1 h2
    interval_cases m <;> simp [daysBefore] <;> omega
  have hle1 : daysBeforeMonth y1 ((m1 : Int) - 1) + (d1 : Int) ≤ 365 + leapOfYear y1 := by
    have := hnn (leapOfYear y1) m1 hl1 hv1.2.1 hv1.2.2.1
    by_cases hm : m1 = 12
    · rw [if_pos hm] at hb1; exact hb1.2
    · rw [if_neg hm] at hb1
      have := daysBefore_mono (leapOfYear y1) hl1 m1 12 (by have := hv1.2.2.1; omega)
        hv1.2.1 le_rfl
      have h12 : daysBefore (leapOfYear y1) (((12 : Nat) : Int) - 1) = 334 + leapOfYear y1 := by
        simp [daysBefore]
      omega
  unfold civilDay
  rcases h with h | ⟨rfl, h⟩
  · have hs := dayFromYear_succ y1
    have hm : DayFromYear ((y1 : Int) + 1) ≤ DayFromYear y2 := dayFromYear_mono (by omega)
    have hd : DaysInYear y1 = 365 + leapOfYear y1 := by
      rcases leapOfYear_cases y1 with h | h <;> omega
    have := hnn (leapOfYear y2) m2 hl2 hv2.2.1 hv2.2.2.1
    have hd2 := hv2.2.2.2.1
    unfold daysBeforeMonth at hb2 ⊢
    unfold daysBeforeMonth at hle1
    omega
  · rcases h with h | ⟨rfl, h⟩
    · have hmono := daysBefore_mono (leapOfYear y1) hl1 m1 m2 h hv1.2.1 hv2.2.2.1
      have hm : m1 ≠ 12 := by have := hv2.2.2.1; omega
      rw [if_neg hm] at hb1
      unfold daysBeforeMonth at hb1 hb2 ⊢
      omega
    · omega

theorem dateLE_timeClip_of_lt (a b : Int) (h : b < a) :
    dateLE (copyDate (TimeClip (some a))) (TimeClip (some b)) = false := by
  unfold copyDate
  by_cases ha : 8640000000000000 < |a|
  · simp [TimeClip, ha, dateLE]
  · by_cases hb : 8640000000000000 < |b|
    · simp [TimeClip, ha, hb, dateLE]
    · simp [TimeClip, ha, hb, dateLE]
      exact h

theorem dateLE_parse_reversed (z : Zone) (hz : z.Steady) (y1 m1 d1 y2 m2 d2 : Nat)
    (hv1 : ValidDate y1 m1 d1) (hv2 : ValidDate y2 m2 d2) (hy : 100 ≤ y2)
    (h : DateLT y2 m2 d2 y1 m1 d1) :
    dateLE (copyDate (parseDate z (split (isoDate y1 m1 d1) '-')))
      (parseDate z (split (isoDate y2 m2 d2) '-')) = false := by
  have hy1 : 100 ≤ y1 := by
    rcases h with h | ⟨h, -⟩ <;> omega
  rw [parseDate_isoDate z y1 m1 d1 hv1 hy1, parseDate_isoDate z y2 m2 d2 hv2 hy]
  have hlt := civilDay_lt y2 m2 d2 y1 m1 d1 hv2 hv1 h
  have hs := hz (civilDay y1 m1 d1 * msPerDay) (civilDay y2 m2 d2 * msPerDay) false false
  rw [abs_lt] at hs
  generalize civilDay y1 m1 d1 = c1 at *
  generalize civilDay y2 m2 d2 = c2 at *
  generalize z.localTZA (c1 * msPerDay) false = o1 at *
  generalize z.localTZA (c2 * msPerDay) false = o2 at *
  have hgt : c2 * msPerDay - o2 < c1 * msPerDay - o1 := by
    unfold msPerDay at *
    omega
  exact dateLE_timeClip_of_lt _ _ hgt

theorem rangeLoop_length (z : Zone) (toD : TimeValue) :
    ∀ (fuel : Nat) (d : TimeValue) (acc r : List JVal),
      rangeLoop z toD fuel d acc = some (.ok r) → acc.length ≤ r.length := by
  intro fuel
  induction fuel with
  | zero => intro d acc r h; simp [rangeLoop] at h
  | succ n ih =>
    intro d acc r h
    cases hle : dateLE d toD with
    | false =>
      rw [rangeLoop_exit z toD d acc n hle] at h
      simp only [Option.some.injEq, Except.ok.injEq] at h
      rw [h]
    | true =>
      obtain ⟨iso, hiso⟩ := toISOString_of_dateLE hle
      rw [rangeLoop_step z toD d iso acc n hle hiso] at h
      have := ih _ _ _ h
      simp only [List.length_append, List.length_singleton] at this
      omega


/-! ### Ranges -/

theorem isoDate_ne_empty (y m d : Nat) : isoDate y m d ≠ "" := by
  intro h
  have := congrArg String.data h
  simp [isoDate, padDigits_four] at this

/-- C6, counterexample. In the zone UTC: (a) after a PUT that stored one date
twice, the reversed range of the specification answers 200 but the collection
written and returned is not the stored one, the repeated date is dropped;
(b) with `fromDate = "0100-01-01"` and `toDate = "0099-12-31"` the loop body
runs, whatever the number of evaluations allowed: the generated sequence is
never empty (the year 99 is read as 1999). -/
theorem reversed_range_counterexample :
    (putAvailable sampleWorld sampleDuplicateBody).2.file =
      some ⟨[.str "2024-05-01", .str "2024-05-01"], [.str "2024-02-01"]⟩ ∧
    postAvailable (Zone.fixed 0) 1 (putAvailable sampleWorld sampleDuplicateBody).2
        (rangeBody "2024-03-10" "2024-03-01") =
      some (⟨200, .obj [("message", .str "Available dates updated successfully"),
                        ("availableDates", .arr [.str "2024-05-01"])]⟩,
        ⟨some ⟨[.str "2024-05-01"], [.str "2024-02-01"]⟩, true,
          [Op.read,
           Op.write ⟨[.str "2024-05-01", .str "2024-05-01"], [.str "2024-02-01"]⟩,
           Op.read, Op.write ⟨[.str "2024-05-01"], [.str "2024-02-01"]⟩]⟩) ∧
    ∀ fuel, generateDates (Zone.fixed 0) fuel (some (.str "0100-01-01"))
      (some (.str "0099-12-31")) ≠ some (.ok []) := by
  refine ⟨rfl, rfl, ?_⟩
  intro fuel h
  rw [generateDates_strings] at h
  cases fuel with
  | zero => simp [rangeLoop] at h
  | succ n =>
    have hle : dateLE (copyDate (parseDate (Zone.fixed 0) (split "0100-01-01" '-')))
        (parseDate (Zone.fixed 0) (split "0099-12-31" '-')) = true := by rfl
    obtain ⟨iso, hiso⟩ := toISOString_of_dateLE hle
    rw [rangeLoop_step _ _ _ iso [] n hle hiso] at h
    have := rangeLoop_length _ _ _ _ _ _ h
    simp at this

/-- C6, amended. For well-formed calendar dates with years from 0100 and
`fromDate` after `toDate`, in a zone whose offsets differ by less than a day,
with a readable document and writable storage: the loop generates the empty
sequence at its first test, the handler answers 200, and the collection written
and returned is the stored collection with repeated values removed; it holds no
value the stored collection does not hold, and it equals the stored collection
when that one is duplicate-free. -/
theorem reversed_range_adds_nothing (z : Zone) (hz : z.Steady) (w : World) (d : Doc)
    (body : JVal) (y1 m1 d1 y2 m2 d2 fuel : Nat)
    (hfile : w.file = some d) (hw : w.writable = true)
    (hv1 : ValidDate y1 m1 d1) (hv2 : ValidDate y2 m2 d2) (hy : 100 ≤ y2)
    (hlt : DateLT y2 m2 d2 y1 m1 d1)
    (hf : body.get "fromDate" = some (.str (isoDate y1 m1 d1)))
    (ht : body.get "toDate" = some (.str (isoDate y2 m2 d2)))
    (hfuel : 1 ≤ fuel) :
    generateDates z fuel (some (.str (isoDate y1 m1 d1))) (some (.str (isoDate y2 m2 d2))) =
      some (.ok []) ∧
    postAvailable z fuel w body =
      some (⟨200, .obj [("message", .str "Available dates updated successfully"),
                        ("availableDates", .arr (arrayFromSet d.availableDates))]⟩,
        { file := some { d with availableDates := arrayFromSet d.availableDates },
          writable := true,
          log := w.log ++ [Op.read,
            Op.write { d with availableDates := arrayFromSet d.availableDates }] }) ∧
    postOccupied z fuel w body =
      some (⟨200, .obj [("message", .str "OccupiedDates dates updated successfully"),
                        ("occupiedDates", .arr (arrayFromSet d.occupiedDates))]⟩,
        { file := some { d with occupiedDates := arrayFromSet d.occupiedDates },
          writable := true,
          log := w.log ++ [Op.read,
            Op.write { d with occupiedDates := arrayFromSet d.occupiedDates }] }) ∧
    (∀ l : List JVal, (∀ v, v ∈ arrayFromSet l → v ∈ l) ∧
      (DupFree l → arrayFromSet l = l)) := by
  obtain ⟨n, rfl⟩ : ∃ n, fuel = n + 1 := ⟨fuel - 1, by omega⟩
  have hg : generateDates z (n + 1) (some (.str (isoDate y1 m1 d1)))
      (some (.str (isoDate y2 m2 d2))) = some (.ok []) := by
    rw [generateDates_strings]
    exact rangeLoop_exit _ _ _ _ _ (dateLE_parse_reversed z hz y1 m1 d1 y2 m2 d2 hv1 hv2 hy hlt)
  have htf : truthy (body.get "fromDate") = true := by
    rw [hf]; simpa [truthy] using isoDate_ne_empty y1 m1 d1
  have htt : truthy (body.get "toDate") = true := by
    rw [ht]; simpa [truthy] using isoDate_ne_empty y2 m2 d2
  refine ⟨hg, ?_, ?_, ?_⟩
  · rw [postAvailable_accept z _ w body htf htt, hf, ht]
    simp [hfile, hg, hw]
  · rw [postOccupied_accept z _ w body htf htt, hf, ht]
    simp [hfile, hg, hw]
  · intro l
    refine ⟨fun v hv => ?_, arrayFromSet_of_dupFree⟩
    rcases mem_setAdd_foldl l [] hv with h | h
    · simp at h
    · exact h

/-- Witness of C6 (amended): the reversed range of the specification,
`2024-03-10` to `2024-03-01`, on the sample document in the zone UTC. -/
theorem reversed_range_adds_nothing_witness :
    postAvailable (Zone.fixed 0) 1 sampleWorld (rangeBody "2024-03-10" "2024-03-01") =
      some (⟨200, .obj [("message", .str "Available dates updated successfully"),
                        ("availableDates", .arr (arrayFromSet sampleDoc.availableDates))]⟩,
        { file := some { sampleDoc with
            availableDates := arrayFromSet sampleDoc.availableDates },
          writable := true,
          log := sampleWorld.log ++ [Op.read,
            Op.write { sampleDoc with
              availableDates := arrayFromSet sampleDoc.availableDates }] }) :=
  (reversed_range_adds_nothing (Zone.fixed 0) (steady_fixed 0) sampleWorld sampleDoc
    (rangeBody "2024-03-10" "2024-03-01") 2024 3 10 2024 3 1 1 rfl rfl
    (by simp [ValidDate, daysInMonth]) (by simp [ValidDate, daysInMonth]) (by decide)
    (by simp [DateLT]) rfl rfl le_rfl).2.1

/-- C1, at the failing inputs. In a zone one hour east of UTC the range
`2024-01-30` to `2024-02-02` is stored and returned one day early; and in the
zone UTC the years 0050 are read as 1950. -/
theorem range_generation_failures :
    postAvailable (Zone.fixed 3600000) 5 sampleEmptyWorld
        (rangeBody "2024-01-30" "2024-02-02") =
      some (⟨200, .obj [("message", .str "Available dates updated successfully"),
                        ("availableDates", .arr [.str "2024-01-29", .str "2024-01-30",
                          .str "2024-01-31", .str "2024-02-01"])]⟩,
        ⟨some ⟨[.str "2024-01-29", .str "2024-01-30", .str "2024-01-31", .str "2024-02-01"],
          []⟩, true,
          [Op.read, Op.write ⟨[.str "2024-01-29", .str "2024-01-30", .str "2024-01-31",
            .str "2024-02-01"], []⟩]⟩) ∧
    generateDates (Zone.fixed 0) 3 (some (.str "0050-01-01")) (some (.str "0050-01-02")) =
      some (.ok [.str "1950-01-01", .str "1950-01-02"]) :=
  ⟨rfl, rfl⟩

/-- The range of the specification in the zone UTC and in a zone three hours
west of it: the four dates from `2024-01-30` to `2024-02-02`. -/
theorem range_generation_example :
    generateDates (Zone.fixed 0) 5 (some (.str "2024-01-30")) (some (.str "2024-02-02")) =
      some (.ok [.str "2024-01-30", .str "2024-01-31", .str "2024-02-01",
        .str "2024-02-02"]) ∧
    generateDates (Zone.fixed (-10800000)) 5 (some (.str "2024-01-30"))
        (some (.str "2024-02-02")) =
      some (.ok [.str "2024-01-30", .str "2024-01-31", .str "2024-02-01",
        .str "2024-02-02"]) :=
  ⟨rfl, rfl⟩

/-- Witness of C7: a range insertion into the available dates of the sample
document keeps its occupied dates. -/
theorem mutation_changes_one_field_witness :
    KeepsOccupied sampleWorld
      ⟨some ⟨[.str "2024-01-01", .str "2024-01-30", .str "2024-01-31"], [.str "2024-02-01"]⟩,
        true,
        [Op.read, Op.write ⟨[.str "2024-01-01", .str "2024-01-30", .str "2024-01-31"],
          [.str "2024-02-01"]⟩]⟩ :=
  (mutation_changes_one_field (Zone.fixed 0) 3 sampleWorld
    (rangeBody "2024-01-30" "2024-01-31")).2.2.2.1 _ _ rfl rfl


/-! ### Ranges in a zone at or west of UTC -/

theorem civilDay_bounds (y m d : Nat) (hv : ValidDate y m d) :
    DayFromYear y ≤ civilDay y m d ∧ civilDay y m d < DayFromYear ((y : Int) + 1) := by
  have hb := dayOfYear_bounds y m d hv
  have hl : leapOfYear y = 0 ∨ leapOfYear y = 1 := by
    rcases leapOfYear_cases y with h | h <;> omega
  have hd : DaysInYear y = 365 + leapOfYear y := by
    rcases leapOfYear_cases y with h | h <;> omega
  have hs := dayFromYear_succ y
  obtain ⟨-, hm1, hm2, hd1, hd2⟩ := hv
  have hnn : 0 ≤ daysBefore (leapOfYear y) ((m : Int) - 1) := by
    interval_cases m <;> simp [daysBefore] <;> omega
  have hup : daysBeforeMonth y ((m : Int) - 1) + (d : Int) ≤ 365 + leapOfYear y := by
    by_cases hm : m = 12
    · rw [if_pos hm] at hb; exact hb.2
    · rw [if_neg hm] at hb
      have := daysBefore_mono (leapOfYear y) hl m 12 (by omega) hm1 le_rfl
      have h12 : daysBefore (leapOfYear y) (((12 : Nat) : Int) - 1) = 334 + leapOfYear y := by
        simp [daysBefore]
      omega
  unfold civilDay
  unfold daysBeforeMonth at hb hup ⊢
  omega

theorem yearFromDay_unique (day y : Int) (h1 : DayFromYear y ≤ day)
    (h2 : day < DayFromYear (y + 1)) : YearFromDay day = y := by
  have hs := yearFromDay_spec day
  by_contra hne
  rcases lt_or_gt_of_ne hne with h | h
  · have := @dayFromYear_mono (YearFromDay day + 1) y (by omega)
    omega
  · have := @dayFromYear_mono (y + 1) (YearFromDay day) (by omega)
    omega

theorem monthOfYearDay_of_valid (y m d : Nat) (hv : ValidDate y m d) :
    monthOfYearDay (daysBeforeMonth y ((m : Int) - 1) + (d : Int) - 1) (leapOfYear y) =
      (m : Int) - 1 := by
  have hb := dayOfYear_bounds y m d hv
  have hl : leapOfYear y = 0 ∨ leapOfYear y = 1 := by
    rcases leapOfYear_cases y with h | h <;> omega
  obtain ⟨-, hm1, hm2, hd1, hd2⟩ := hv
  generalize daysBeforeMonth y ((m : Int) - 1) + (d : Int) = doy at hb ⊢
  generalize leapOfYear y = l at hb hl ⊢
  have hc := monthOfYearDay_cases (doy - 1) l
  generalize monthOfYearDay (doy - 1) l = r at hc ⊢
  interval_cases m <;> simp [daysBefore] at hb <;> omega

theorem fields_of_civilDay (y m d : Nat) (hv : ValidDate y m d) (t : Int)
    (ht : Day t = civilDay y m d) :
    YearFromTime t = y ∧ MonthFromTime t = (m : Int) - 1 ∧ DateFromTime t = d := by
  have hb := civilDay_bounds y m d hv
  have hy : YearFromTime t = y := by
    unfold YearFromTime
    rw [ht]
    exact yearFromDay_unique _ _ hb.1 hb.2
  have hdw : DayWithinYear t = daysBeforeMonth y ((m : Int) - 1) + (d : Int) - 1 := by
    unfold DayWithinYear
    rw [hy, ht]
    unfold civilDay
    omega
  have hm : MonthFromTime t = (m : Int) - 1 := by
    unfold MonthFromTime InLeapYear
    rw [hy, hdw]
    exact monthOfYearDay_of_valid y m d hv
  refine ⟨hy, hm, ?_⟩
  have hs := daysBefore_add_dateOfYearDay (DayWithinYear t) (InLeapYear t)
  have hm' : monthOfYearDay (DayWithinYear t) (InLeapYear t) = (m : Int) - 1 := hm
  rw [hm'] at hs
  unfold DateFromTime
  rw [hm]
  have hl : InLeapYear t = leapOfYear y := by unfold InLeapYear; rw [hy]
  rw [hl] at hs ⊢
  rw [hdw] at hs ⊢
  unfold daysBeforeMonth at hs ⊢
  omega

theorem monthOfYearDay_daysBefore (l mn : Int) (hl : l = 0 ∨ l = 1) (h0 : 0 ≤ mn)
    (h11 : mn ≤ 11) : monthOfYearDay (daysBefore l mn) l = mn := by
  have hc := monthOfYearDay_cases (daysBefore l mn) l
  generalize monthOfYearDay (daysBefore l mn) l = r at hc ⊢
  have hmn : mn = 0 ∨ mn = 1 ∨ mn = 2 ∨ mn = 3 ∨ mn = 4 ∨ mn = 5 ∨ mn = 6 ∨ mn = 7 ∨
      mn = 8 ∨ mn = 9 ∨ mn = 10 ∨ mn = 11 := by omega
  rcases hmn with rfl | rfl | rfl | rfl | rfl | rfl | rfl | rfl | rfl | rfl | rfl | rfl <;>
    simp [daysBefore] at hc <;> omega

/-- The time that `MakeDay` takes for the first day of month `mn` of year `ym`
is the one the standard asks for: its year is `ym`, its month `mn` and its
day of the month `1`. -/
theorem makeDay_meets_standard (ym mn : Int) (h0 : 0 ≤ mn) (h11 : mn ≤ 11) :
    YearFromTime ((DayFromYear ym + daysBeforeMonth ym mn) * msPerDay) = ym ∧
    MonthFromTime ((DayFromYear ym + daysBeforeMonth ym mn) * msPerDay) = mn ∧
    DateFromTime ((DayFromYear ym + daysBeforeMonth ym mn) * msPerDay) = 1 := by
  have hl : leapOfYear ym = 0 ∨ leapOfYear ym = 1 := by
    rcases leapOfYear_cases ym with h | h <;> omega
  have hdy : DaysInYear ym = 365 + leapOfYear ym := by
    rcases leapOfYear_cases ym with h | h <;> omega
  have hs := dayFromYear_succ ym
  have hb : 0 ≤ daysBefore (leapOfYear ym) mn ∧
      daysBefore (leapOfYear ym) mn ≤ 334 + leapOfYear ym := by
    have hmn : mn = 0 ∨ mn = 1 ∨ mn = 2 ∨ mn = 3 ∨ mn = 4 ∨ mn = 5 ∨ mn = 6 ∨ mn = 7 ∨
        mn = 8 ∨ mn = 9 ∨ mn = 10 ∨ mn = 11 := by omega
    rcases hmn with rfl | rfl | rfl | rfl | rfl | rfl | rfl | rfl | rfl | rfl | rfl | rfl <;>
      simp [daysBefore] <;> omega
  have hday : Day ((DayFromYear ym + daysBeforeMonth ym mn) * msPerDay) =
      DayFromYear ym + daysBeforeMonth ym mn := by
    unfold Day msPerDay
    omega
  have hy : YearFromTime ((DayFromYear ym + daysBeforeMonth ym mn) * msPerDay) = ym := by
    unfold YearFromTime
    rw [hday]
    apply yearFromDay_unique
    · unfold daysBeforeMonth; omega
    · unfold daysBeforeMonth; omega
  have hdw : DayWithinYear ((DayFromYear ym + daysBeforeMonth ym mn) * msPerDay) =
      daysBefore (leapOfYear ym) mn := by
    unfold DayWithinYear
    rw [hy, hday]
    unfold daysBeforeMonth
    omega
  have hm : MonthFromTime ((DayFromYear ym + daysBeforeMonth ym mn) * msPerDay) = mn := by
    unfold MonthFromTime InLeapYear
    rw [hy, hdw]
    exact monthOfYearDay_daysBefore _ _ hl h0 h11
  refine ⟨hy, hm, ?_⟩
  have hsum := daysBefore_add_dateOfYearDay (daysBefore (leapOfYear ym) mn) (leapOfYear ym)
  rw [monthOfYearDay_daysBefore _ _ hl h0 h11] at hsum
  unfold DateFromTime
  rw [hm]
  unfold InLeapYear
  rw [hy, hdw]
  omega


theorem splitChars_append (sep : Char) (p rest : List Char) (hp : ∀ c ∈ p, c ≠ sep) :
    splitChars sep (p ++ sep :: rest) = p :: splitChars sep rest := by
  induction p with
  | nil => simp [splitChars]
  | cons c cs ih =>
    have hc : c ≠ sep := hp c (List.mem_cons_self _ _)
    have ih' := ih (fun x hx => hp x (List.mem_cons_of_mem _ hx))
    rw [List.cons_append, splitChars, if_neg hc, ih']

theorem digitChar_ne_T (k : Nat) : digitChar k ≠ 'T' := by
  have h := digitChar_cases k
  generalize digitChar k = c at h
  simp only [List.mem_cons, List.mem_singleton, List.not_mem_nil, or_false] at h
  rcases h with rfl | rfl | rfl | rfl | rfl | rfl | rfl | rfl | rfl | rfl <;> decide

theorem toISOString_date (y m d : Nat) (hv : ValidDate y m d) (t : Int)
    (ht : Day t = civilDay y m d) :
    ∃ iso, toISOString (some t) = .ok iso ∧ (split iso 'T').headD "" = isoDate y m d := by
  obtain ⟨hy, hm, hd⟩ := fields_of_civilDay y m d hv t ht
  refine ⟨_, rfl, ?_⟩
  have hy1 : isoYear (y : Int) = padDigits 4 y := by
    unfold isoYear
    rw [if_pos ⟨by omega, by have := hv.1; omega⟩]
    simp
  have hm1 : ((m : Int) - 1 + 1).toNat = m := by omega
  simp only [hy, hm, hd, hy1, hm1, Int.toNat_ofNat, split]
  have hsplit := splitChars_append 'T'
    (padDigits 4 y ++ '-' :: (padDigits 2 m ++ '-' :: padDigits 2 d))
    (padDigits 2 (HourFromTime t).toNat ++ ':' :: (padDigits 2 (MinFromTime t).toNat ++
      ':' :: (padDigits 2 (SecFromTime t).toNat ++
        '.' :: (padDigits 3 (msFromTime t).toNat ++ ['Z']))))
    (by
      intro c hc
      simp only [padDigits_four, padDigits_two, List.cons_append, List.nil_append,
        List.mem_cons, List.mem_singleton, List.not_mem_nil, or_false] at hc
      rcases hc with rfl | rfl | rfl | rfl | rfl | rfl | rfl | rfl | rfl | rfl <;>
        first | exact digitChar_ne_T _ | decide)
  simp only [List.append_assoc, List.cons_append] at hsplit ⊢
  rw [hsplit]
  simp [isoDate]

theorem nextDate_cases (y m d : Nat) :
    (d < daysInMonth y m ∧ nextDate (y, m, d) = (y, m, d + 1)) ∨
    (¬ d < daysInMonth y m ∧ m < 12 ∧ nextDate (y, m, d) = (y, m + 1, 1)) ∨
    (¬ d < daysInMonth y m ∧ ¬ m < 12 ∧ nextDate (y, m, d) = (y + 1, 1, 1)) := by
  unfold nextDate
  by_cases h1 : d < daysInMonth y m
  · left; exact ⟨h1, by simp [h1]⟩
  · by_cases h2 : m < 12
    · right; left; exact ⟨h1, h2, by simp [h1, h2]⟩
    · right; right; exact ⟨h1, h2, by simp [h1, h2]⟩

theorem validDate_nextDate (c : Nat × Nat × Nat) (hv : ValidDate c.1 c.2.1 c.2.2)
    (hy : (nextDate c).1 ≤ 9999) :
    ValidDate (nextDate c).1 (nextDate c).2.1 (nextDate c).2.2 := by
  obtain ⟨y, m, d⟩ := c
  obtain ⟨hy1, hm1, hm2, hd1, hd2⟩ := hv
  simp only at hy1 hm1 hm2 hd1 hd2
  rcases nextDate_cases y m d with ⟨h1, he⟩ | ⟨h1, h2, he⟩ | ⟨h1, h2, he⟩
  · rw [he]
    dsimp only
    exact ⟨hy1, hm1, hm2, by omega, by omega⟩
  · rw [he]
    dsimp only
    refine ⟨hy1, by omega, by omega, le_rfl, ?_⟩
    show 1 ≤ daysInMonth y (m + 1)
    unfold daysInMonth
    split <;> try omega
    split_ifs <;> omega
  · rw [he] at hy ⊢
    dsimp only at hy ⊢
    refine ⟨hy, le_rfl, by omega, le_rfl, ?_⟩
    simp [daysInMonth]

theorem daysBefore_succ (y m : Nat) (hm1 : 1 ≤ m) (hm2 : m < 12) :
    daysBefore (leapOfYear y) (m : Int) =
      daysBefore (leapOfYear y) ((m : Int) - 1) + daysInMonth y m := by
  unfold daysInMonth
  rcases leapOfYear_cases y with ⟨h366, hl⟩ | ⟨h365, hl⟩
  · rw [hl]
    interval_cases m <;> simp [daysBefore, h366]
  · rw [hl]
    have h366 : DaysInYear (y : Int) ≠ 366 := by omega
    interval_cases m <;> simp [daysBefore, h366]

theorem civilDay_nextDate (c : Nat × Nat × Nat) (hv : ValidDate c.1 c.2.1 c.2.2) :
    civilDay (nextDate c).1 (nextDate c).2.1 (nextDate c).2.2 =
      civilDay c.1 c.2.1 c.2.2 + 1 := by
  obtain ⟨y, m, d⟩ := c
  obtain ⟨hy1, hm1, hm2, hd1, hd2⟩ := hv
  simp only at hy1 hm1 hm2 hd1 hd2
  rcases nextDate_cases y m d with ⟨h1, he⟩ | ⟨h1, h2, he⟩ | ⟨h1, h2, he⟩
  · rw [he]
    dsimp only
    simp only [civilDay]
    push_cast
    omega
  · rw [he]
    dsimp only
    have hd : d = daysInMonth y m := by omega
    have hs := daysBefore_succ y m hm1 h2
    simp only [civilDay, daysBeforeMonth]
    push_cast
    have e1 : (m : Int) + 1 - 1 = m := by omega
    rw [e1, hs, hd]
    omega
  · rw [he]
    dsimp only
    have hm : m = 12 := by omega
    subst hm
    have hd : d = 31 := by
      have : daysInMonth y 12 = 31 := by simp [daysInMonth]
      omega
    subst hd
    have hs := dayFromYear_succ y
    have hdy : DaysInYear y = 365 + leapOfYear y := by
      rcases leapOfYear_cases y with h | h <;> omega
    simp only [civilDay, daysBeforeMonth]
    push_cast
    have h0 : daysBefore (leapOfYear ((y : Int) + 1)) 0 = 0 := by simp [daysBefore]
    have h11 : daysBefore (leapOfYear (y : Int)) 11 = 334 + leapOfYear y := by
      simp [daysBefore]
    rw [h0, h11]
    omega

theorem civilDay_abs_le (y m d : Nat) (hv : ValidDate y m d) :
    -3000000 ≤ civilDay y m d ∧ civilDay y m d + 1 ≤ 3000000 := by
  have hb := civilDay_bounds y m d hv
  have hy := hv.1
  have h0 : DayFromYear 0 ≤ DayFromYear y := dayFromYear_mono (by omega)
  have h1 : DayFromYear ((y : Int) + 1) ≤ DayFromYear 10000 := dayFromYear_mono (by omega)
  have e0 : DayFromYear 0 = -719528 := by decide
  have e1 : DayFromYear 10000 = 2932897 := by decide
  omega

theorem year_le_iterate_nextDate (n : Nat) :
    ∀ c : Nat × Nat × Nat, c.1 ≤ (nextDate^[n] c).1 := by
  induction n with
  | zero => intro c; exact le_rfl
  | succ n ih =>
    intro c
    rw [Function.iterate_succ_apply]
    refine le_trans ?_ (ih (nextDate c))
    obtain ⟨y, m, d⟩ := c
    rcases nextDate_cases y m d with ⟨-, he⟩ | ⟨-, -, he⟩ | ⟨-, -, he⟩
    · rw [he]
    · rw [he]
    · rw [he]; dsimp only; omega

theorem parseDate_fixed (off : Int) (c : Nat × Nat × Nat) (hv : ValidDate c.1 c.2.1 c.2.2)
    (hy : 100 ≤ c.1) (h1 : -msPerDay < off) (h2 : off ≤ 0) :
    parseDate (Zone.fixed off) (split (isoDate c.1 c.2.1 c.2.2) '-') =
      some (midnight off c) := by
  rw [parseDate_isoDate _ _ _ _ hv hy]
  have hb := civilDay_abs_le _ _ _ hv
  unfold TimeClip midnight Zone.fixed
  simp only
  rw [if_neg]
  rw [not_lt, abs_le]
  unfold msPerDay at *
  constructor <;> omega

theorem day_midnight (off : Int) (c : Nat × Nat × Nat) (h1 : -msPerDay < off) (h2 : off ≤ 0) :
    Day (midnight off c) = civilDay c.1 c.2.1 c.2.2 := by
  unfold Day midnight msPerDay at *
  omega

theorem setDate_midnight (off : Int) (c : Nat × Nat × Nat) (hv : ValidDate c.1 c.2.1 c.2.2)
    (h1 : -msPerDay < off) (h2 : off ≤ 0) :
    setDate (Zone.fixed off) (some (midnight off c))
        ((getDate (Zone.fixed off) (some (midnight off c))).add 1) =
      some (midnight off (nextDate c)) := by
  rw [setDate_next]
  have hb := civilDay_abs_le _ _ _ hv
  have hn := civilDay_nextDate c hv
  have he : LocalTime (Zone.fixed off) (midnight off c) + msPerDay
      - (Zone.fixed off).localTZA (LocalTime (Zone.fixed off) (midnight off c) + msPerDay)
        false = midnight off (nextDate c) := by
    unfold midnight LocalTime Zone.fixed
    simp only
    rw [hn]
    unfold msPerDay
    omega
  rw [he]
  unfold TimeClip
  simp only
  rw [if_neg]
  rw [not_lt, abs_le]
  unfold midnight
  rw [hn]
  unfold msPerDay at *
  constructor <;> omega

theorem rangeLoop_dateRange (off : Int) (h1 : -msPerDay < off) (h2 : off ≤ 0) :
    ∀ (n : Nat) (c : Nat × Nat × Nat) (acc : List JVal) (fuel : Nat),
      ValidDate c.1 c.2.1 c.2.2 → (nextDate^[n] c).1 ≤ 9999 → n + 2 ≤ fuel →
      rangeLoop (Zone.fixed off) (some (midnight off (nextDate^[n] c))) fuel
          (some (midnight off c)) acc =
        some (.ok (acc ++ (dateRange n c).map (fun e => .str (isoDate e.1 e.2.1 e.2.2)))) := by
  intro n
  induction n with
  | zero =>
    intro c acc fuel hv _ hfuel
    obtain ⟨f, rfl⟩ : ∃ f, fuel = f + 1 + 1 := ⟨fuel - 2, by omega⟩
    obtain ⟨iso, hiso, hfecha⟩ := toISOString_date c.1 c.2.1 c.2.2 hv (midnight off c)
      (day_midnight off c h1 h2)
    have hle : dateLE (some (midnight off c)) (some (midnight off c)) = true := by
      simp [dateLE]
    simp only [Function.iterate_zero, id_eq]
    rw [rangeLoop_step _ _ _ iso acc (f + 1) hle hiso, hfecha, setDate_midnight off c hv h1 h2,
      rangeLoop_exit]
    · simp [dateRange]
    · have hn := civilDay_nextDate c hv
      simp only [dateLE, decide_eq_false_iff_not, not_le]
      unfold midnight
      rw [hn]
      unfold msPerDay
      omega
  | succ n ih =>
    intro c acc fuel hv hend hfuel
    obtain ⟨f, rfl⟩ : ∃ f, fuel = f + 1 := ⟨fuel - 1, by omega⟩
    rw [Function.iterate_succ_apply] at hend ⊢
    have hyn : (nextDate c).1 ≤ 9999 := le_trans (year_le_iterate_nextDate n (nextDate c)) hend
    have hvn := validDate_nextDate c hv hyn
    obtain ⟨iso, hiso, hfecha⟩ := toISOString_date c.1 c.2.1 c.2.2 hv (midnight off c)
      (day_midnight off c h1 h2)
    have hle : dateLE (some (midnight off c))
        (some (midnight off (nextDate^[n] (nextDate c)))) = true := by
      by_contra hcon
      simp only [Bool.not_eq_true] at hcon
      have hmono : ∀ (k : Nat) (e : Nat × Nat × Nat), ValidDate e.1 e.2.1 e.2.2 →
          (nextDate^[k] e).1 ≤ 9999 →
          civilDay e.1 e.2.1 e.2.2 ≤
            civilDay (nextDate^[k] e).1 (nextDate^[k] e).2.1 (nextDate^[k] e).2.2 := by
        intro k
        induction k with
        | zero => intro e _ _; exact le_rfl
        | succ k ihk =>
          intro e he hk
          rw [Function.iterate_succ_apply] at hk ⊢
          have hye : (nextDate e).1 ≤ 9999 :=
            le_trans (year_le_iterate_nextDate k (nextDate e)) hk
          have := ihk (nextDate e) (validDate_nextDate e he hye) hk
          have := civilDay_nextDate e he
          omega
      have hm := hmono n (nextDate c) hvn hend
      have hn := civilDay_nextDate c hv
      simp only [dateLE, decide_eq_false_iff_not, not_le] at hcon
      unfold midnight at hcon
      unfold msPerDay at hcon
      omega
    rw [rangeLoop_step _ _ _ iso acc f hle hiso, hfecha, setDate_midnight off c hv h1 h2,
      ih (nextDate c) _ f hvn hend (by omega)]
    simp [dateRange]

/-- Range generation at or west of UTC. In a zone at a fixed offset from UTC
between minus one day and zero, for a well-formed date `c` with a year from
0100 and the date `n` days later with a year up to 9999, the handlers generate
exactly the calendar dates `c`, `c + 1 day`, ..., `c + n days`, each once, in
order, each as its own `YYYY-MM-DD` string. -/
theorem range_generation_west_of_utc (off : Int) (h1 : -msPerDay < off) (h2 : off ≤ 0)
    (c : Nat × Nat × Nat) (n fuel : Nat) (hv : ValidDate c.1 c.2.1 c.2.2) (hy : 100 ≤ c.1)
    (hend : (nextDate^[n] c).1 ≤ 9999) (hfuel : n + 2 ≤ fuel) :
    generateDates (Zone.fixed off) fuel (some (.str (isoDate c.1 c.2.1 c.2.2)))
        (some (.str (isoDate (nextDate^[n] c).1 (nextDate^[n] c).2.1 (nextDate^[n] c).2.2))) =
      some (.ok ((dateRange n c).map (fun e => .str (isoDate e.1 e.2.1 e.2.2)))) := by
  have hvalid : ∀ (k : Nat) (e : Nat × Nat × Nat), ValidDate e.1 e.2.1 e.2.2 →
      (nextDate^[k] e).1 ≤ 9999 →
      ValidDate (nextDate^[k] e).1 (nextDate^[k] e).2.1 (nextDate^[k] e).2.2 := by
    intro k
    induction k with
    | zero => intro e he _; exact he
    | succ k ihk =>
      intro e he hk
      rw [Function.iterate_succ_apply] at hk ⊢
      exact ihk (nextDate e)
        (validDate_nextDate e he (le_trans (year_le_iterate_nextDate k (nextDate e)) hk)) hk
  have hvt := hvalid n c hv hend
  have hyt : 100 ≤ (nextDate^[n] c).1 := le_trans hy (year_le_iterate_nextDate n c)
  rw [generateDates_strings, parseDate_fixed off c hv hy h1 h2,
    parseDate_fixed off _ hvt hyt h1 h2]
  have hcopy : copyDate (some (midnight off c)) = some (midnight off c) := by
    have := parseDate_fixed off c hv hy h1 h2
    unfold copyDate
    rw [← this]
    unfold parseDate newDate
    simp only
    generalize UTC _ _ = x
    cases x with
    | none => rfl
    | some t => unfold TimeClip; simp only; split_ifs <;> simp_all
  rw [hcopy, rangeLoop_dateRange off h1 h2 n c [] fuel hv hend hfuel]
  simp


/-- The range of the specification, three hours west of UTC, as an instance of
the general statement. -/
theorem range_generation_west_of_utc_example :
    generateDates (Zone.fixed (-10800000)) 5 (some (.str "2024-01-30"))
        (some (.str "2024-02-02")) =
      some (.ok [.str "2024-01-30", .str "2024-01-31", .str "2024-02-01",
        .str "2024-02-02"]) :=
  range_generation_west_of_utc (-10800000) (by decide) (by decide) (2024, 1, 30) 3 5
    (by simp [ValidDate, daysInMonth]) (by decide) (by decide) (by decide)


end Hostel
